import Mathlib

/-
Verification of the anilisttools core against its specification.

The embedding below translates the two core modules of the repository:
  request_utils.py  (transport, depaginator, result cache)
  mirror_list.py    (sync engine and confirmation controller)
into executable Lean definitions.  JSON values are modelled by an inductive
tree with objects as association lists (Python dicts with unique keys),
HTTP traffic by scripted response lists, blocking sleeps by accumulated
durations measured in tenths of a second, and console input by scripted
answer lists.  Side effects that do not influence control flow (printing,
log files) are not modelled.
-/

namespace Anilist

/-! ## JSON values

Python dict and list payloads.  Objects carry their fields in insertion
order; the repository only ever builds dicts with distinct keys. -/

inductive Json where
  | null
  | bool (b : Bool)
  | num (n : Int)
  | str (s : String)
  | arr (items : List Json)
  | obj (fields : List (String × Json))

/-- Python dict indexing d[k] (first binding; keys are unique in practice). -/
def Json.lookupKey : Json → String → Option Json
  | .obj fs, k => (fs.find? (fun p => p.1 == k)).map Prod.snd
  | _, _ => none

/-- Python truthiness of a JSON value. -/
def Json.truthy : Json → Bool
  | .null => false
  | .bool b => b
  | .num n => n != 0
  | .str s => s != ""
  | .arr l => !l.isEmpty
  | .obj fs => !fs.isEmpty

/-! ## Transport: safe_post_request (request_utils.py lines 14-59)

A run of safe_post_request is determined by the sequence of HTTP responses
the endpoint produces for the repeated identical post.  We model that
sequence explicitly and record, in order, every time.sleep duration in
tenths of a second (the code sleeps fractional seconds only in the 0.1 s
branch).  total_queries increments are recorded in the counted field. -/

structure HttpResponse where
  status : Nat
  /-- Value of the Retry-After header, when present. -/
  retryAfter : Option Nat
  /-- The response body as parsed JSON; none models an unparsable body. -/
  body : Option Json

inductive TransportErr where
  /-- The scripted response list ran out while the code was still waiting
  out 429 responses; the real code would keep blocking and resending. -/
  | exhausted
  /-- response.json() raised (line 44-48). -/
  | unparsable
  /-- response.raise_for_status() on a non-ok response (line 50-54). -/
  | apiError
  /-- response_json has no data key (line 56). -/
  | keyError
deriving DecidableEq, Repr

structure TransportResult where
  /-- Number of requests.post calls issued. -/
  attempts : Nat
  /-- Every time.sleep duration, in order, in tenths of a second. -/
  sleeps : List Nat
  /-- Number of increments of safe_post_request.total_queries. -/
  counted : Nat
  outcome : Except TransportErr Json

/-- Post-loop part of safe_post_request: count the query, parse the body,
surface API errors, and return the data field (lines 41-56). -/
def finish_post (attempts : Nat) (sleeps : List Nat) (r : HttpResponse) : TransportResult :=
  match r.body with
  | none => ⟨attempts, sleeps, 1, .error .unparsable⟩
  | some j =>
    if 200 ≤ r.status ∧ r.status < 400 then
      match j.lookupKey "data" with
      | some d => ⟨attempts, sleeps, 1, .ok d⟩
      | none => ⟨attempts, sleeps, 1, .error .keyError⟩
    else ⟨attempts, sleeps, 1, .error .apiError⟩

/-- The rate-limit retry loop of safe_post_request (lines 18-39).  On a 429
with a Retry-After header the code sleeps retry_after = header + 1 seconds
at line 28 and then sleeps the same retry_after again at line 38; without
the header it sleeps 0.1 seconds at line 34 and then 61 seconds at
line 38. -/
def post_loop : List HttpResponse → Nat → List Nat → TransportResult
  | [], attempts, sleeps => ⟨attempts, sleeps, 0, .error .exhausted⟩
  | r :: rest, attempts, sleeps =>
    if r.status = 429 then
      match r.retryAfter with
      | some ra => post_loop rest (attempts + 1) (sleeps ++ [10 * (ra + 1), 10 * (ra + 1)])
      | none => post_loop rest (attempts + 1) (sleeps ++ [1, 610])
    else finish_post (attempts + 1) sleeps r

/-- safe_post_request over a scripted response sequence. -/
def safe_post_request (responses : List HttpResponse) : TransportResult :=
  post_loop responses 0 []

/-! ## Depaginator: depaginated_request (request_utils.py lines 63-101)

The pages argument scripts the data payloads the transport returns for
page 1, 2, ... of the repeated query.  The Nat in the result counts the
transport calls made. -/

/-- Lines 85-89: blindly unwrap single-key wrapper objects until a field
named pageInfo appears.  An empty dict fails the assert at line 86, a
multi-key dict the assert at line 87; non-dict payloads fail in Python
with a TypeError when indexed. -/
def unwrap_to_page : Json → Except String Json
  | .obj fs =>
    if "pageInfo" ∈ fs.map Prod.fst then .ok (.obj fs)
    else
      match fs with
      | [] => .error "Could not find pageInfo in paginated request."
      | [(_, v)] => unwrap_to_page v
      | _ => .error "Cannot de-paginate query with multiple returned fields."
  | _ => .error "TypeError: paginated payload is not an object"

/-- Lines 92-93: the page object must hold exactly two fields, pageInfo and
the item list; returns the items together with the pageInfo value. -/
def extract_page : Json → Except String (List Json × Json)
  | .obj fs =>
    if fs.length = 2 then
      match fs.find? (fun p => p.1 != "pageInfo") with
      | some (_, .arr items) =>
        match (Json.obj fs).lookupKey "pageInfo" with
        | some pinfo => .ok (items, pinfo)
        | none => .error "KeyError: pageInfo"
      | some _ => .error "TypeError: page items are not a list"
      | none => .error "StopIteration: no field besides pageInfo"
    else .error "Cannot de-paginate query with multiple returned fields."
  | _ => .error "TypeError: paginated payload is not an object"

/-- The page loop of depaginated_request (lines 77-101): accumulate items,
honour max_count (truncating the final page), and stop once hasNextPage is
falsy. -/
def depaginate_go : List Json → Option Nat → List Json → Nat →
    Except String (List Json × Nat)
  | [], _, _, _ => .error "no scripted transport response for this page"
  | d :: rest, max_count, out, calls =>
    match unwrap_to_page d with
    | .error e => .error e
    | .ok core =>
      match extract_page core with
      | .error e => .error e
      | .ok (items, pinfo) =>
        let out2 := out ++ items
        match max_count with
        | some m =>
          if m ≤ out2.length then .ok (out2.take m, calls + 1)
          else
            match pinfo.lookupKey "hasNextPage" with
            | none => .error "KeyError: hasNextPage"
            | some flag =>
              if flag.truthy then depaginate_go rest (some m) out2 (calls + 1)
              else .ok (out2, calls + 1)
        | none =>
          match pinfo.lookupKey "hasNextPage" with
          | none => .error "KeyError: hasNextPage"
          | some flag =>
            if flag.truthy then depaginate_go rest none out2 (calls + 1)
            else .ok (out2, calls + 1)

def depaginated_request (pages : List Json) (max_count : Option Nat) :
    Except String (List Json × Nat) :=
  depaginate_go pages max_count [] 0

/-! ## Result cache: cache (request_utils.py lines 129-145)

Only the startup load of the persistent store is relevant here (line 133):
  cache = json.load(open(file_name, 'r')) if Path(file_name).is_file() else {}
A missing file yields the empty dict; a present but unparsable file makes
json.load raise a JSONDecodeError, which nothing catches. -/

inductive CacheFileState where
  | missing
  | corrupt
  | parsed (store : Json)

def load_cache_store : CacheFileState → Except String Json
  | .missing => .ok (.obj [])
  | .corrupt => .error "json.decoder.JSONDecodeError"
  | .parsed s => .ok s

/-! ## Entry model (mirror_list.py, fields of the get_user_list query)

A fetched list entry always carries the fixed field set requested at
lines 174-201 of mirror_list.py.  customLists is returned by the API as a
map of label to enabled flag, modelled as an association list in key
order. -/

structure FuzzyDate where
  year : Option Nat
  month : Option Nat
  day : Option Nat
deriving DecidableEq, Repr

structure MediaTitle where
  english : Option String
  romaji : Option String
deriving DecidableEq, Repr

structure MediaInfo where
  title : MediaTitle
  duration : Option Nat
deriving DecidableEq, Repr

structure ListEntry where
  /-- id of the list entry itself, assigned by the service. -/
  id : Nat
  mediaId : Nat
  status : String
  score : Option Nat
  progress : Nat
  startedAt : FuzzyDate
  completedAt : FuzzyDate
  notes : Option String
  hiddenFromStatusLists : Bool
  /-- Wire form: map of custom list label to enabled flag. -/
  customLists : List (String × Bool)
  media : MediaInfo
  /-- The repeat field of the query (repeat is a reserved word in Lean). -/
  repeatCount : Nat
deriving DecidableEq, Repr

/-- Line 240 and 267 of mirror_list.py: the list of enabled labels sent in
place of the wire map when writing an entry. -/
def enabled_custom_lists (cl : List (String × Bool)) : List String :=
  (cl.filter (fun p => p.2)).map Prod.fst

/-- The GraphQL variables sent by the SaveMediaListEntry mutations. -/
structure SaveVars where
  id : Option Nat
  mediaId : Nat
  status : String
  score : Option Nat
  progress : Nat
  startedAt : FuzzyDate
  completedAt : FuzzyDate
  notes : Option String
  hiddenFromStatusLists : Bool
  customLists : List String
  repeatCount : Nat
deriving DecidableEq, Repr

/-- add_list_entry (lines 220-242): sends every field except id, with
customLists converted from the wire map to the enabled-label list. -/
def add_list_entry_vars (e : ListEntry) : SaveVars :=
  ⟨none, e.mediaId, e.status, e.score, e.progress, e.startedAt, e.completedAt,
    e.notes, e.hiddenFromStatusLists, enabled_custom_lists e.customLists, e.repeatCount⟩

/-- update_list_entry (lines 246-269): sends every field including id, with
the same customLists conversion. -/
def update_list_entry_vars (e : ListEntry) : SaveVars :=
  ⟨some e.id, e.mediaId, e.status, e.score, e.progress, e.startedAt, e.completedAt,
    e.notes, e.hiddenFromStatusLists, enabled_custom_lists e.customLists, e.repeatCount⟩

/-! ## Confirmation controller (mirror_list.py lines 12-20, 286-343) -/

structure ListEditVerbosity where
  verbose : Bool
  require_approval : Bool
deriving DecidableEq, Repr

/-- One console reply to the confirmation prompt, abstracted from the
startswith checks at lines 333-342: anything that is not y/f/s raises. -/
inductive Answer where
  | yes
  | force
  | skip
  | abort
deriving DecidableEq, Repr

inductive MirrorErr where
  /-- Line 58: the user rejected the initial safety prompt. -/
  | userCancelled
  /-- Line 75: duplicate mediaId in the destination list. -/
  | integrityError
  /-- Unguarded attribute access verbosity.verbose on None (lines 79, 95,
  115, 128, 145, 151). -/
  | attrError
  /-- Line 84: source status missing from status_map. -/
  | keyError
  /-- Line 342: the user quit out of a confirmation prompt. -/
  | userAbort
  /-- The scripted answer list ran out at a prompt; the real code would
  block on input. -/
  | inputExhausted
deriving DecidableEq, Repr

/-- A write issued against the destination list.  create carries the entry
passed to add_list_entry (sent without its id field), update the entry
passed to update_list_entry, delete the entry whose id is sent to
delete_list_entry. -/
inductive Op where
  | create (e : ListEntry)
  | update (e : ListEntry)
  | delete (e : ListEntry)
deriving DecidableEq, Repr

def opMediaId : Op → Nat
  | .create e => e.mediaId
  | .update e => e.mediaId
  | .delete e => e.mediaId

/-- ask_for_confirm_or_skip (lines 325-342).  Returns the approval
decision, the verbosity context after a possible force escalation, and the
remaining console input. -/
def ask_for_confirm_or_skip (verbosity : Option ListEditVerbosity)
    (answers : List Answer) :
    Except MirrorErr (Bool × Option ListEditVerbosity × List Answer) :=
  match verbosity with
  | some v =>
    if v.require_approval = false then .ok (true, some v, answers)
    else
      match answers with
      | [] => .error .inputExhausted
      | .yes :: rest => .ok (true, some v, rest)
      | .force :: rest => .ok (true, some { v with require_approval := false }, rest)
      | .skip :: rest => .ok (false, some v, rest)
      | .abort :: _ => .error .userAbort
  | none =>
    match answers with
    | [] => .error .inputExhausted
    | .yes :: rest => .ok (true, none, rest)
    | .force :: rest => .ok (true, none, rest)
    | .skip :: rest => .ok (false, none, rest)
    | .abort :: _ => .error .userAbort

/-- Lines 313-314: the fields on which two entries differ.  Both fetched
entries carry the same fixed key set, so the key union is that set. -/
def diff_fields (o n : ListEntry) : List String :=
  ([("id", o.id != n.id),
    ("mediaId", o.mediaId != n.mediaId),
    ("status", o.status != n.status),
    ("score", o.score != n.score),
    ("progress", o.progress != n.progress),
    ("startedAt", o.startedAt != n.startedAt),
    ("completedAt", o.completedAt != n.completedAt),
    ("notes", o.notes != n.notes),
    ("hiddenFromStatusLists", o.hiddenFromStatusLists != n.hiddenFromStatusLists),
    ("customLists", o.customLists != n.customLists),
    ("media", o.media != n.media),
    ("repeat", o.repeatCount != n.repeatCount)].filter (fun p => p.2)).map Prod.fst

/-- Lines 307-315: creates and deletes are major; an update is major when
it changes the status or touches at least three fields. -/
def major_change (old new : Option ListEntry) : Bool :=
  match old, new with
  | none, _ => true
  | some _, none => true
  | some o, some n => (o.status != n.status) || decide (3 ≤ (diff_fields o n).length)

/-- confirm_entry_diff (lines 286-322).  Printing and the log file are not
modelled; the returned Bool is whether the operation goes ahead. -/
def confirm_entry_diff (old new : Option ListEntry)
    (verbosity : Option ListEditVerbosity) (answers : List Answer) :
    Except MirrorErr (Bool × Option ListEditVerbosity × List Answer) :=
  if new = old then .ok (false, verbosity, answers)
  else
    match verbosity with
    | none => .ok (true, none, answers)
    | some v =>
      if (v.verbose || v.require_approval) = false then .ok (true, some v, answers)
      else if v.require_approval = false then .ok (true, some v, answers)
      else if major_change old new = false then .ok (true, some v, answers)
      else ask_for_confirm_or_skip (some v) answers

/-! ## Sync engine (mirror_list.py lines 23-156) -/

/-- The entry_factory hook. -/
def Factory := Option ListEntry → Option ListEntry → Option ListEntry

structure MirrorState where
  verbosity : Option ListEditVerbosity
  answers : List Answer
  /-- Writes issued so far, in order. -/
  ops : List Op
  /-- Arguments of every entry_factory invocation so far, in order. -/
  calls : List (Option ListEntry × Option ListEntry)

/-- The summary interface the specification ascribes to the entry point:
mirror(...) -> summary with created, updated, deleted, skipped and
totalRequests counts. -/
structure Summary where
  created : Nat
  updated : Nat
  deleted : Nat
  skipped : Nat
  totalRequests : Nat
deriving DecidableEq, Repr

structure MirrorResult where
  ops : List Op
  calls : List (Option ListEntry × Option ListEntry)
  /-- mirror_list returns None on every completed run (the bare return at
  line 134 and falling off the end at line 156), modelled as the none
  value of the summary type the spec postulates. -/
  outcome : Except MirrorErr (Option Summary)

/-- One confirm-then-write step: every write site (lines 94-99, 114-119,
127-130, 144-147, 150-155) first calls confirm_entry_diff and, when
approved, reads verbosity.verbose before issuing the write, which raises
an AttributeError when verbosity is None. -/
def gate_op (old new : Option ListEntry) (op : Op) (st : MirrorState) :
    MirrorState × Option MirrorErr :=
  match confirm_entry_diff old new st.verbosity st.answers with
  | .error e => (st, some e)
  | .ok (conf, v2, ans2) =>
    let st2 : MirrorState := ⟨v2, ans2, st.ops, st.calls⟩
    if conf then
      match v2 with
      | none => (st2, some .attrError)
      | some _ => (⟨v2, ans2, st.ops ++ [op], st.calls⟩, none)
    else (st2, none)

/-- Python dict lookup to_user_list_by_media_id[m] (line 74), built from
the destination list, which the integrity assert keeps duplicate-free. -/
def toById (to_list : List ListEntry) (m : Nat) : Option ListEntry :=
  to_list.find? (fun e => e.mediaId == m)

/-- First pass (lines 78-130): create or update an entry per source item.
The status remap at line 84 leaves mediaId untouched, so the dict lookup
at line 87 is written on item.mediaId directly. -/
def process_from (to_by_id : Nat → Option ListEntry)
    (smap : List (String × String)) (ignore : List String)
    (factory : Option Factory) :
    List ListEntry → MirrorState → MirrorState × Option MirrorErr
  | [], st => (st, none)
  | item :: rest, st =>
    -- line 79: verbosity.verbose on the current verbosity context
    match st.verbosity with
    | none => (st, some .attrError)
    | some _ =>
      -- line 84: remap the status
      match (smap.find? (fun p => p.1 == item.status)).map Prod.snd with
      | none => (st, some .keyError)
      | some mapped =>
        match to_by_id item.mediaId with
        | none =>
          -- lines 87-100: new entry for the destination user
          match factory with
          | none =>
            match gate_op none (some { item with status := mapped })
                (.create { item with status := mapped }) st with
            | (st2, some e) => (st2, some e)
            | (st2, none) => process_from to_by_id smap ignore factory rest st2
          | some f =>
            match f (some { item with status := mapped }) none with
            | none =>
              process_from to_by_id smap ignore factory rest
                ⟨st.verbosity, st.answers, st.ops,
                  st.calls ++ [(some { item with status := mapped }, none)]⟩
            | some item2 =>
              match gate_op none (some item2) (.create item2)
                  ⟨st.verbosity, st.answers, st.ops,
                    st.calls ++ [(some { item with status := mapped }, none)]⟩ with
              | (st2, some e) => (st2, some e)
              | (st2, none) => process_from to_by_id smap ignore factory rest st2
        | some to_item =>
          -- lines 105-107: protected destination status
          if to_item.status ∈ ignore then
            process_from to_by_id smap ignore factory rest st
          else
            match factory with
            | some f =>
              match f (some { item with status := mapped }) (some to_item) with
              | none =>
                -- lines 113-120: the hook switched this pair to a delete
                match gate_op (some to_item) none (.delete to_item)
                    ⟨st.verbosity, st.answers, st.ops,
                      st.calls ++ [(some { item with status := mapped }, some to_item)]⟩ with
                | (st2, some e) => (st2, some e)
                | (st2, none) => process_from to_by_id smap ignore factory rest st2
              | some item2 =>
                -- lines 125-130
                match gate_op (some to_item) (some { item2 with id := to_item.id })
                    (.update { item2 with id := to_item.id })
                    ⟨st.verbosity, st.answers, st.ops,
                      st.calls ++ [(some { item with status := mapped }, some to_item)]⟩ with
                | (st2, some e) => (st2, some e)
                | (st2, none) => process_from to_by_id smap ignore factory rest st2
            | none =>
              match gate_op (some to_item)
                  (some { item with status := mapped, id := to_item.id })
                  (.update { item with status := mapped, id := to_item.id }) st with
              | (st2, some e) => (st2, some e)
              | (st2, none) => process_from to_by_id smap ignore factory rest st2

/-- Second pass (lines 136-155): delete destination entries that no source
entry mapped onto, unless protected or rescued by the hook. -/
def process_deletes (mapped_ids : List Nat) (ignore : List String)
    (factory : Option Factory) :
    List ListEntry → MirrorState → MirrorState × Option MirrorErr
  | [], st => (st, none)
  | to_item :: rest, st =>
    if to_item.mediaId ∈ mapped_ids ∨ to_item.status ∈ ignore then
      process_deletes mapped_ids ignore factory rest st
    else
      match factory with
      | some f =>
        match f none (some to_item) with
        | some new_item =>
          -- lines 143-148: rescued, becomes an update
          match gate_op (some to_item) (some new_item) (.update new_item)
              ⟨st.verbosity, st.answers, st.ops, st.calls ++ [(none, some to_item)]⟩ with
          | (st2, some e) => (st2, some e)
          | (st2, none) => process_deletes mapped_ids ignore factory rest st2
        | none =>
          match gate_op (some to_item) none (.delete to_item)
              ⟨st.verbosity, st.answers, st.ops, st.calls ++ [(none, some to_item)]⟩ with
          | (st2, some e) => (st2, some e)
          | (st2, none) => process_deletes mapped_ids ignore factory rest st2
      | none =>
        match gate_op (some to_item) none (.delete to_item) st with
        | (st2, some e) => (st2, some e)
        | (st2, none) => process_deletes mapped_ids ignore factory rest st2

/-- Python str.upper on the ASCII status strings the engine handles
(structurally recursive, unlike String.toUpper, so that concrete runs
evaluate inside the kernel). -/
def pyUpper (s : String) : String := ⟨s.data.map Char.toUpper⟩

/-- Lines 60-64: the defaulted, case-sanitized status map. -/
def sanitizedStatusMap (status_map : Option (List (String × String))) :
    List (String × String) :=
  (status_map.getD ((["CURRENT", "COMPLETED", "PAUSED", "DROPPED", "PLANNING",
      "REPEATING"]).map (fun s => (s, s)))).map
    (fun p => (pyUpper p.1, pyUpper p.2))

/-- Line 65: the defaulted, case-sanitized protected status set. -/
def sanitizedIgnore (ignore : Option (List String)) : List String :=
  (ignore.getD []).map pyUpper

/-- mirror_list (lines 23-156).  from_user_list and to_user_list stand for
the two fetched collections, initial_yes for the reply to the safety
prompt at line 57, and answers for the console input consumed by the
confirmation prompts. -/
def mirror_list (from_user_list to_user_list : List ListEntry)
    (status_map : Option (List (String × String)))
    (ignore_to_user_statuses : Option (List String))
    (delete_unmapped : Bool)
    (entry_factory : Option Factory)
    (verbosity : Option ListEditVerbosity)
    (initial_yes : Bool)
    (answers : List Answer) : MirrorResult :=
  -- lines 56-58: initial safety prompt
  if (match verbosity with
      | some v => v.require_approval
      | none => false) && !initial_yes then
    ⟨[], [], .error .userCancelled⟩
  else
    -- line 75: sanity assert against duplicate destination entries
    if (to_user_list.map (fun e => e.mediaId)).Nodup then
      match process_from (toById to_user_list) (sanitizedStatusMap status_map)
          (sanitizedIgnore ignore_to_user_statuses) entry_factory
          from_user_list ⟨verbosity, answers, [], []⟩ with
      | (st, some e) => ⟨st.ops, st.calls, .error e⟩
      | (st, none) =>
        -- lines 133-134: early return when deletions are disabled
        if delete_unmapped = false then ⟨st.ops, st.calls, .ok none⟩
        else
          match process_deletes (from_user_list.map (fun e => e.mediaId))
              (sanitizedIgnore ignore_to_user_statuses) entry_factory
              to_user_list st with
          | (st2, some e) => ⟨st2.ops, st2.calls, .error e⟩
          | (st2, none) => ⟨st2.ops, st2.calls, .ok none⟩
    else ⟨[], [], .error .integrityError⟩

/-! ## Remote application of a run of writes

Models the service state after the engine applied its writes: a create
appends the entry under a service-assigned fresh id (add_list_entry omits
the id field), an update replaces the entry whose id matches (every update
op carries the destination entry id assigned at line 125), and a delete
removes the entry whose id matches. -/

/-- SaveMediaListEntry keyed by entry id: the destination entry whose id
matches the written entry is replaced wholesale. -/
def upd_entry (e d : ListEntry) : ListEntry := if d.id = e.id then e else d

def apply_op (dest : List ListEntry) (fresh_id : Nat) : Op → List ListEntry
  | .create e => dest ++ [{ e with id := fresh_id }]
  | .update e => dest.map (upd_entry e)
  | .delete e => dest.filter (fun d => d.id ≠ e.id)

def apply_ops (dest : List ListEntry) (fresh : Nat → Nat) (k : Nat) :
    List Op → List ListEntry
  | [] => dest
  | op :: rest => apply_ops (apply_op dest (fresh k) op) fresh (k + 1) rest

/-! ## Proof-layer views of the engine

Pure descriptions of the writes produced by a run with no entry_factory
and approval forced off; the simulation lemmas below prove them equal to
the monadic engine. -/

/-- Line 84 as a pure map: the entry with its status remapped. -/
def remapS (smap : List (String × String)) (S : ListEntry) : ListEntry :=
  { S with status := ((smap.find? (fun p => p.1 == S.status)).map Prod.snd).getD S.status }

/-- Line 125: the candidate entry compared against a destination entry,
carrying the destination entry id. -/
def candidateFor (smap : List (String × String)) (S D : ListEntry) : ListEntry :=
  { remapS smap S with id := D.id }

/-- The writes of the first pass with no hook and approval off. -/
def forced_ops1 (to_by_id : Nat → Option ListEntry)
    (smap : List (String × String)) (ignore : List String) :
    List ListEntry → List Op
  | [] => []
  | S :: rest =>
    (match to_by_id S.mediaId with
     | none => [Op.create (remapS smap S)]
     | some D =>
       if D.status ∈ ignore then []
       else if candidateFor smap S D = D then []
       else [Op.update (candidateFor smap S D)]) ++
    forced_ops1 to_by_id smap ignore rest

/-- The writes of the delete pass with no hook and approval off. -/
def forced_ops2 (mapped_ids : List Nat) (ignore : List String)
    (to_list : List ListEntry) : List Op :=
  to_list.filterMap (fun D =>
    if D.mediaId ∈ mapped_ids ∨ D.status ∈ ignore then none
    else some (Op.delete D))

/-- A hook that never fabricates a foreign mediaId: whatever entry it
returns carries the mediaId of the source/destination pair it was given. -/
def MediaIdPreserving (f : Factory) : Prop :=
  (∀ s d e, f (some s) d = some e → e.mediaId = s.mediaId) ∧
  (∀ d e, f none (some d) = some e → e.mediaId = d.mediaId)

/-! ## Depaginator payload shapes -/

/-- The payload shapes the depaginator accepts: an object that already
holds a pageInfo field, wrapped in zero or more single-key layers. -/
inductive UnwrapsTo : Json → List (String × Json) → Prop where
  | base (fs : List (String × Json)) (h : "pageInfo" ∈ fs.map Prod.fst) :
      UnwrapsTo (.obj fs) fs
  | step (k : String) (j : Json) (fs : List (String × Json))
      (hk : k ≠ "pageInfo") (h : UnwrapsTo j fs) : UnwrapsTo (.obj [(k, j)]) fs

/-! ## Concrete entries used by witnesses and counterexamples -/

def sampleEntry : ListEntry :=
  ⟨501, 1, "COMPLETED", some 80, 12, ⟨some 2020, some 1, some 1⟩,
    ⟨some 2020, some 3, none⟩, none, false, [], ⟨⟨some "T", some "t"⟩, some 24⟩, 0⟩

/-- A protected destination entry for a different media. -/
def protectedEntry : ListEntry :=
  { sampleEntry with id := 777, mediaId := 2, status := "PAUSED" }

/-- A hook output fabricating the protected mediaId. -/
def fabricatedEntry : ListEntry :=
  { sampleEntry with mediaId := 2, status := "CURRENT" }

/-! # Theorems -/

/-! ## C3: rate-limit sleep duration (code bug) -/

/-- Claim C3: the claim (and the message the code prints at line 25) say a
429 with a retry delay is followed by a single sleep of the delay plus a
one-second margin.  The code sleeps that amount twice — once at line 28
and once again at line 38 — so a 429 with Retry-After 2 sleeps 3 s + 3 s
(in tenths: [30, 30]); and with no Retry-After it sleeps 0.1 s and then a
further 61 s (tenths: [1, 610]), not a short fixed interval. -/
theorem safe_post_request_double_sleep :
    (safe_post_request [⟨429, some 2, none⟩,
        ⟨200, none, some (.obj [("data", .num 7)])⟩]).sleeps = [30, 30] ∧
    (safe_post_request [⟨429, none, none⟩,
        ⟨200, none, some (.obj [("data", .num 7)])⟩]).sleeps = [1, 610] :=
  ⟨rfl, rfl⟩

/-! ## C6: one counter increment per call -/

/-- Claim C6: a call that sees one 429 with Retry-After 2 and then a 200
issues two HTTP attempts, returns the data payload of the 200 response,
and increments the process-wide completed-request counter exactly once. -/
theorem rate_limit_recovery :
    safe_post_request [⟨429, some 2, none⟩,
        ⟨200, none, some (.obj [("data", .num 7)])⟩] =
      ⟨2, [30, 30], 1, .ok (.num 7)⟩ :=
  rfl

/-! ## C8: cache load failure modes (corrected) -/

/-- Claim C8 (counterexample): a present but unparsable cache file is not
treated as an empty cache — json.load raises at line 133 and nothing
catches it. -/
theorem load_cache_corrupt_raises :
    load_cache_store .corrupt = .error "json.decoder.JSONDecodeError" :=
  rfl

/-- Claim C8 (amended): a missing cache file is treated as the empty
cache, but a corrupt cache file raises the JSON parse error at load
time. -/
theorem load_cache_amended :
    load_cache_store .missing = .ok (.obj []) ∧
    load_cache_store .corrupt = .error "json.decoder.JSONDecodeError" :=
  ⟨rfl, rfl⟩

/-! ## C4: customLists normalization before comparison (corrected) -/

/-- Claim C4 (counterexample): two entries whose customLists denote the
same enabled-label set (both empty) but differ in the raw wire map are
reported as different by the comparison, which then lets an update
through; the comparison is therefore not performed on the canonical
map-to-enabled-set form. -/
theorem confirm_not_normalized :
    enabled_custom_lists
        (ListEntry.customLists { sampleEntry with customLists := [("A", false)] }) =
      enabled_custom_lists sampleEntry.customLists ∧
    confirm_entry_diff (some { sampleEntry with customLists := [("A", false)] })
        (some sampleEntry) (some ⟨false, false⟩) [] =
      .ok (true, some ⟨false, false⟩, []) :=
  ⟨rfl, rfl⟩

/-- Claim C4 (amended): no normalization is applied before comparison.
confirm_entry_diff reports no difference exactly when the two wire-form
entries (customLists still the raw label-to-flag map) are structurally
equal; the map-to-enabled-list conversion happens only in the write
payloads of add_list_entry and update_list_entry. -/
theorem confirm_raw_equality (e1 e2 : ListEntry)
    (v : Option ListEditVerbosity) (ans : List Answer) :
    (confirm_entry_diff (some e1) (some e2) v ans = .ok (false, v, ans) ↔ e2 = e1) ∧
    (update_list_entry_vars e1).customLists = enabled_custom_lists e1.customLists ∧
    (add_list_entry_vars e1).customLists = enabled_custom_lists e1.customLists := by
  refine ⟨⟨?_, ?_⟩, rfl, rfl⟩
  · intro h
    by_cases he : e2 = e1
    · exact he
    · exfalso
      simp only [confirm_entry_diff, Option.some.injEq, he, if_false] at h
      rcases v with _ | ⟨vb, ra⟩
      · simp at h
      · cases ra
        · cases vb <;> simp at h
        · cases vb <;>
          · simp only [Bool.or_true, Bool.true_eq_false, if_false] at h
            split at h
            · simp at h
            · simp only [ask_for_confirm_or_skip] at h
              rcases ans with _ | ⟨a, rest⟩
              · simp at h
              · cases a <;> simp at h
  · intro he
    subst he
    simp [confirm_entry_diff]

/-! ## C5: major/minor classification and gating -/

/-- Claim C5: a pending operation is major exactly when it is a Create or
a Delete, or an Update that changes the status field or touches at least
three fields; a minor operation is applied without prompting under every
verbosity context; a major operation under require_approval is routed to
the interactive prompt. -/
theorem confirm_entry_diff_classification (old new : Option ListEntry)
    (hne : new ≠ old) :
    (major_change old new = true ↔
      (old = none ∨ new = none ∨
        ∃ o n, old = some o ∧ new = some n ∧
          (o.status ≠ n.status ∨ 3 ≤ (diff_fields o n).length))) ∧
    (major_change old new = false →
      ∀ v ans, confirm_entry_diff old new v ans = .ok (true, v, ans)) ∧
    (major_change old new = true →
      ∀ vb ans, confirm_entry_diff old new (some ⟨vb, true⟩) ans =
        ask_for_confirm_or_skip (some ⟨vb, true⟩) ans) := by
  refine ⟨?_, ?_, ?_⟩
  · rcases old with _ | o <;> rcases new with _ | n <;>
      simp [major_change, Decidable.em]
  · intro hmin v ans
    simp only [confirm_entry_diff, if_neg hne]
    rcases v with _ | ⟨vb, ra⟩
    · rfl
    · cases ra
      · cases vb <;> simp
      · cases vb <;> simp [hmin]
  · intro hmaj vb ans
    simp only [confirm_entry_diff, if_neg hne]
    simp [hmaj]

/-- Witness for C5: an update changing only progress is minor and goes
through without any prompt even under require_approval. -/
theorem confirm_entry_diff_classification_witness :
    (some { sampleEntry with progress := 13 } ≠ some sampleEntry) ∧
    major_change (some sampleEntry) (some { sampleEntry with progress := 13 }) = false ∧
    confirm_entry_diff (some sampleEntry) (some { sampleEntry with progress := 13 })
      (some ⟨false, true⟩) [] = .ok (true, some ⟨false, true⟩, []) :=
  ⟨by decide, by decide,
    (confirm_entry_diff_classification (some sampleEntry)
        (some { sampleEntry with progress := 13 }) (by decide)).2.1 (by decide) _ _⟩

/-! ## C9: the entry point returns no summary (corrected) -/

/-- Claim C9 (counterexample): a completed (non-aborted) run of
mirror_list returns None — here a trivial run completes with outcome
.ok none, not a summary of counts. -/
theorem mirror_returns_none :
    (mirror_list [] [] none none true none (some ⟨false, false⟩) true []).outcome =
      .ok none :=
  rfl

/-- Claim C9 (amended): mirror_list never returns a summary value; every
completed run returns None (the counts the spec postulates are not
returned to the caller). -/
theorem mirror_no_summary (from_list to_list : List ListEntry)
    (status_map : Option (List (String × String))) (ignore : Option (List String))
    (du : Bool) (factory : Option Factory) (verbosity : Option ListEditVerbosity)
    (iy : Bool) (ans : List Answer) (s : Summary) :
    (mirror_list from_list to_list status_map ignore du factory verbosity iy ans).outcome ≠
      .ok (some s) := by
  simp only [mirror_list]
  split
  · simp
  · split
    · split
      · simp
      · split
        · simp
        · split <;> simp
    · simp

/-- Witness for C9 (amended), applied at a concrete run. -/
theorem mirror_no_summary_witness :
    (mirror_list [] [] none none true none (some ⟨false, false⟩) true []).outcome ≠
      .ok (some ⟨0, 0, 0, 0, 0⟩) :=
  mirror_no_summary [] [] none none true none (some ⟨false, false⟩) true [] ⟨0, 0, 0, 0, 0⟩

/-! ## C10: verbosity None crashes before any write -/

/-- Claim C10: when verbosity is None and the fetched source list is
non-empty, the run fails with the AttributeError at the unguarded
verbosity.verbose access (line 79) while processing the first source
entry, before any write is issued and before the hook is ever invoked
(provided the integrity assert at line 75 passes, which the duplicate-free
fetched destination guarantees). -/
theorem mirror_verbosity_none_attr_error
    (x : ListEntry) (from_rest : List ListEntry) (to_list : List ListEntry)
    (status_map : Option (List (String × String))) (ignore : Option (List String))
    (du : Bool) (factory : Option Factory) (iy : Bool) (ans : List Answer)
    (hnodup : (to_list.map (fun e => e.mediaId)).Nodup) :
    mirror_list (x :: from_rest) to_list status_map ignore du factory none iy ans =
      ⟨[], [], .error .attrError⟩ := by
  simp [mirror_list, hnodup, process_from]

/-- Witness for C10 at a concrete call. -/
theorem mirror_verbosity_none_attr_error_witness :
    mirror_list [sampleEntry] [] none none true none none true [] =
      ⟨[], [], .error .attrError⟩ :=
  mirror_verbosity_none_attr_error sampleEntry [] [] none none true none true []
    (by simp)

/-! ## C1: protection invariant (corrected) -/

/-- Claim C1 (counterexample): the protection does not hold regardless of
the entry_factory hook.  A hook that fabricates an entry bearing the
protected destination mediaId makes the create branch emit a Create op
for that mediaId even though the destination entry with that mediaId has
a protected status. -/
theorem mirror_protected_counterexample :
    protectedEntry.status ∈ sanitizedIgnore (some ["PAUSED"]) ∧
    (mirror_list [sampleEntry] [protectedEntry] none (some ["PAUSED"]) false
        (some (fun _ _ => some fabricatedEntry)) (some ⟨false, false⟩) true []).ops =
      [.create fabricatedEntry] ∧
    opMediaId (.create fabricatedEntry) = protectedEntry.mediaId :=
  ⟨by decide, rfl, rfl⟩

/-! ## Lookup helper lemmas -/

theorem toById_mem (to_list : List ListEntry) (m : Nat) (E : ListEntry)
    (h : toById to_list m = some E) : E ∈ to_list ∧ E.mediaId = m := by
  unfold toById at h
  refine ⟨List.mem_of_find?_eq_some h, ?_⟩
  have h2 := List.find?_some h
  simpa using h2

theorem toById_none (to_list : List ListEntry) (m : Nat)
    (h : toById to_list m = none) : ∀ E ∈ to_list, E.mediaId ≠ m := by
  unfold toById at h
  rw [List.find?_eq_none] at h
  intro E hE
  simpa using h E hE

theorem mediaId_inj (l : List ListEntry)
    (hnodup : (l.map (fun e => e.mediaId)).Nodup)
    (a b : ListEntry) (ha : a ∈ l) (hb : b ∈ l)
    (h : a.mediaId = b.mediaId) : a = b :=
  List.inj_on_of_nodup_map hnodup ha hb h

/-- gate_op only ever appends its own op to the trace and never touches
the factory-call trace. -/
theorem gate_op_state (old new : Option ListEntry) (op : Op) (st : MirrorState) :
    ∃ st2 e?, gate_op old new op st = (st2, e?) ∧
      (st2.ops = st.ops ∨ st2.ops = st.ops ++ [op]) ∧ st2.calls = st.calls := by
  unfold gate_op
  cases h : confirm_entry_diff old new st.verbosity st.answers with
  | error e => exact ⟨st, some e, rfl, Or.inl rfl, rfl⟩
  | ok r =>
    obtain ⟨conf, v2, ans2⟩ := r
    cases conf
    · exact ⟨⟨v2, ans2, st.ops, st.calls⟩, none, rfl, Or.inl rfl, rfl⟩
    · cases v2 with
      | none => exact ⟨⟨none, ans2, st.ops, st.calls⟩, some .attrError, rfl, Or.inl rfl, rfl⟩
      | some v => exact ⟨⟨some v, ans2, st.ops ++ [op], st.calls⟩, none, rfl, Or.inr rfl, rfl⟩

/-! ## Branch equations for the two passes -/

theorem process_from_eq_attr (tb : Nat → Option ListEntry)
    (smap : List (String × String)) (ignore : List String)
    (factory : Option Factory) (item : ListEntry) (rest : List ListEntry)
    (st : MirrorState) (hv : st.verbosity = none) :
    process_from tb smap ignore factory (item :: rest) st = (st, some .attrError) := by
  conv_lhs => unfold process_from
  rw [hv]

theorem process_from_eq_key (tb : Nat → Option ListEntry)
    (smap : List (String × String)) (ignore : List String)
    (factory : Option Factory) (item : ListEntry) (rest : List ListEntry)
    (st : MirrorState) (v : ListEditVerbosity) (hv : st.verbosity = some v)
    (hs : (smap.find? (fun p => p.1 == item.status)).map Prod.snd = none) :
    process_from tb smap ignore factory (item :: rest) st = (st, some .keyError) := by
  conv_lhs => unfold process_from
  rw [hv, hs]

theorem process_from_eq_create_none (tb : Nat → Option ListEntry)
    (smap : List (String × String)) (ignore : List String)
    (item : ListEntry) (rest : List ListEntry)
    (st : MirrorState) (v : ListEditVerbosity) (mapped : String)
    (hv : st.verbosity = some v)
    (hs : (smap.find? (fun p => p.1 == item.status)).map Prod.snd = some mapped)
    (hb : tb item.mediaId = none) :
    process_from tb smap ignore none (item :: rest) st =
      match gate_op none (some { item with status := mapped })
          (.create { item with status := mapped }) st with
      | (st2, some e) => (st2, some e)
      | (st2, none) => process_from tb smap ignore none rest st2 := by
  conv_lhs => unfold process_from
  simp only [hv, hs, hb]

theorem process_from_eq_create_hooknone (tb : Nat → Option ListEntry)
    (smap : List (String × String)) (ignore : List String) (f : Factory)
    (item : ListEntry) (rest : List ListEntry)
    (st : MirrorState) (v : ListEditVerbosity) (mapped : String)
    (hv : st.verbosity = some v)
    (hs : (smap.find? (fun p => p.1 == item.status)).map Prod.snd = some mapped)
    (hb : tb item.mediaId = none)
    (hf : f (some { item with status := mapped }) none = none) :
    process_from tb smap ignore (some f) (item :: rest) st =
      process_from tb smap ignore (some f) rest
        ⟨st.verbosity, st.answers, st.ops,
          st.calls ++ [(some { item with status := mapped }, none)]⟩ := by
  conv_lhs => unfold process_from
  simp only [hv, hs, hb, hf]

theorem process_from_eq_create_hooksome (tb : Nat → Option ListEntry)
    (smap : List (String × String)) (ignore : List String) (f : Factory)
    (item : ListEntry) (rest : List ListEntry)
    (st : MirrorState) (v : ListEditVerbosity) (mapped : String) (item2 : ListEntry)
    (hv : st.verbosity = some v)
    (hs : (smap.find? (fun p => p.1 == item.status)).map Prod.snd = some mapped)
    (hb : tb item.mediaId = none)
    (hf : f (some { item with status := mapped }) none = some item2) :
    process_from tb smap ignore (some f) (item :: rest) st =
      match gate_op none (some item2) (.create item2)
          ⟨st.verbosity, st.answers, st.ops,
            st.calls ++ [(some { item with status := mapped }, none)]⟩ with
      | (st2, some e) => (st2, some e)
      | (st2, none) => process_from tb smap ignore (some f) rest st2 := by
  conv_lhs => unfold process_from
  simp only [hv, hs, hb, hf]

theorem process_from_eq_prot (tb : Nat → Option ListEntry)
    (smap : List (String × String)) (ignore : List String)
    (factory : Option Factory) (item : ListEntry) (rest : List ListEntry)
    (st : MirrorState) (v : ListEditVerbosity) (mapped : String) (to_item : ListEntry)
    (hv : st.verbosity = some v)
    (hs : (smap.find? (fun p => p.1 == item.status)).map Prod.snd = some mapped)
    (hb : tb item.mediaId = some to_item)
    (hig : to_item.status ∈ ignore) :
    process_from tb smap ignore factory (item :: rest) st =
      process_from tb smap ignore factory rest st := by
  conv_lhs => unfold process_from
  simp only [hv, hs, hb]
  rw [if_pos hig]

theorem process_from_eq_upd_none (tb : Nat → Option ListEntry)
    (smap : List (String × String)) (ignore : List String)
    (item : ListEntry) (rest : List ListEntry)
    (st : MirrorState) (v : ListEditVerbosity) (mapped : String) (to_item : ListEntry)
    (hv : st.verbosity = some v)
    (hs : (smap.find? (fun p => p.1 == item.status)).map Prod.snd = some mapped)
    (hb : tb item.mediaId = some to_item)
    (hig : to_item.status ∉ ignore) :
    process_from tb smap ignore none (item :: rest) st =
      match gate_op (some to_item)
          (some { item with status := mapped, id := to_item.id })
          (.update { item with status := mapped, id := to_item.id }) st with
      | (st2, some e) => (st2, some e)
      | (st2, none) => process_from tb smap ignore none rest st2 := by
  conv_lhs => unfold process_from
  simp only [hv, hs, hb]
  rw [if_neg hig]

theorem process_from_eq_hookdel (tb : Nat → Option ListEntry)
    (smap : List (String × String)) (ignore : List String) (f : Factory)
    (item : ListEntry) (rest : List ListEntry)
    (st : MirrorState) (v : ListEditVerbosity) (mapped : String) (to_item : ListEntry)
    (hv : st.verbosity = some v)
    (hs : (smap.find? (fun p => p.1 == item.status)).map Prod.snd = some mapped)
    (hb : tb item.mediaId = some to_item)
    (hig : to_item.status ∉ ignore)
    (hf : f (some { item with status := mapped }) (some to_item) = none) :
    process_from tb smap ignore (some f) (item :: rest) st =
      match gate_op (some to_item) none (.delete to_item)
          ⟨st.verbosity, st.answers, st.ops,
            st.calls ++ [(some { item with status := mapped }, some to_item)]⟩ with
      | (st2, some e) => (st2, some e)
      | (st2, none) => process_from tb smap ignore (some f) rest st2 := by
  conv_lhs => unfold process_from
  simp only [hv, hs, hb]
  rw [if_neg hig]
  simp only [hf]

theorem process_from_eq_hookupd (tb : Nat → Option ListEntry)
    (smap : List (String × String)) (ignore : List String) (f : Factory)
    (item : ListEntry) (rest : List ListEntry)
    (st : MirrorState) (v : ListEditVerbosity) (mapped : String)
    (to_item item2 : ListEntry)
    (hv : st.verbosity = some v)
    (hs : (smap.find? (fun p => p.1 == item.status)).map Prod.snd = some mapped)
    (hb : tb item.mediaId = some to_item)
    (hig : to_item.status ∉ ignore)
    (hf : f (some { item with status := mapped }) (some to_item) = some item2) :
    process_from tb smap ignore (some f) (item :: rest) st =
      match gate_op (some to_item) (some { item2 with id := to_item.id })
          (.update { item2 with id := to_item.id })
          ⟨st.verbosity, st.answers, st.ops,
            st.calls ++ [(some { item with status := mapped }, some to_item)]⟩ with
      | (st2, some e) => (st2, some e)
      | (st2, none) => process_from tb smap ignore (some f) rest st2 := by
  conv_lhs => unfold process_from
  simp only [hv, hs, hb]
  rw [if_neg hig]
  simp only [hf]

theorem process_deletes_eq_skip (mapped_ids : List Nat) (ignore : List String)
    (factory : Option Factory) (to_item : ListEntry) (rest : List ListEntry)
    (st : MirrorState)
    (h : to_item.mediaId ∈ mapped_ids ∨ to_item.status ∈ ignore) :
    process_deletes mapped_ids ignore factory (to_item :: rest) st =
      process_deletes mapped_ids ignore factory rest st := by
  conv_lhs => unfold process_deletes
  rw [if_pos h]

theorem process_deletes_eq_del_none (mapped_ids : List Nat) (ignore : List String)
    (to_item : ListEntry) (rest : List ListEntry) (st : MirrorState)
    (h : ¬(to_item.mediaId ∈ mapped_ids ∨ to_item.status ∈ ignore)) :
    process_deletes mapped_ids ignore none (to_item :: rest) st =
      match gate_op (some to_item) none (.delete to_item) st with
      | (st2, some e) => (st2, some e)
      | (st2, none) => process_deletes mapped_ids ignore none rest st2 := by
  conv_lhs => unfold process_deletes
  rw [if_neg h]

theorem process_deletes_eq_rescue (mapped_ids : List Nat) (ignore : List String)
    (f : Factory) (to_item new_item : ListEntry) (rest : List ListEntry)
    (st : MirrorState)
    (h : ¬(to_item.mediaId ∈ mapped_ids ∨ to_item.status ∈ ignore))
    (hf : f none (some to_item) = some new_item) :
    process_deletes mapped_ids ignore (some f) (to_item :: rest) st =
      match gate_op (some to_item) (some new_item) (.update new_item)
          ⟨st.verbosity, st.answers, st.ops, st.calls ++ [(none, some to_item)]⟩ with
      | (st2, some e) => (st2, some e)
      | (st2, none) => process_deletes mapped_ids ignore (some f) rest st2 := by
  conv_lhs => unfold process_deletes
  rw [if_neg h]
  simp only [hf]

theorem process_deletes_eq_hookdel (mapped_ids : List Nat) (ignore : List String)
    (f : Factory) (to_item : ListEntry) (rest : List ListEntry)
    (st : MirrorState)
    (h : ¬(to_item.mediaId ∈ mapped_ids ∨ to_item.status ∈ ignore))
    (hf : f none (some to_item) = none) :
    process_deletes mapped_ids ignore (some f) (to_item :: rest) st =
      match gate_op (some to_item) none (.delete to_item)
          ⟨st.verbosity, st.answers, st.ops, st.calls ++ [(none, some to_item)]⟩ with
      | (st2, some e) => (st2, some e)
      | (st2, none) => process_deletes mapped_ids ignore (some f) rest st2 := by
  conv_lhs => unfold process_deletes
  rw [if_neg h]
  simp only [hf]

/-! ## C1: protection invariant, amended (mediaId-preserving hooks) -/

/-- Invariant of the first pass: no op for a protected mediaId is ever
appended, and the hook is only ever handed non-protected destination
entries. -/
theorem process_from_protected_inv (to_list : List ListEntry)
    (smap : List (String × String)) (ignore : List String)
    (factory : Option Factory)
    (hfac : ∀ f, factory = some f → MediaIdPreserving f)
    (hnodup : (to_list.map (fun e => e.mediaId)).Nodup)
    (D : ListEntry) (hD : D ∈ to_list) (hprot : D.status ∈ ignore) :
    ∀ (lst : List ListEntry) (st : MirrorState),
      (∀ op ∈ st.ops, opMediaId op ≠ D.mediaId) →
      (∀ c ∈ st.calls, ∀ d, c.2 = some d → d.status ∉ ignore) →
      (∀ op ∈ (process_from (toById to_list) smap ignore factory lst st).1.ops,
          opMediaId op ≠ D.mediaId) ∧
      (∀ c ∈ (process_from (toById to_list) smap ignore factory lst st).1.calls,
          ∀ d, c.2 = some d → d.status ∉ ignore) := by
  intro lst
  induction lst with
  | nil => intro st hops hcalls; exact ⟨hops, hcalls⟩
  | cons item rest ih =>
    intro st hops hcalls
    rcases hv : st.verbosity with _ | v
    · rw [process_from_eq_attr _ _ _ _ _ _ _ hv]
      exact ⟨hops, hcalls⟩
    · rcases hs : (smap.find? (fun p => p.1 == item.status)).map Prod.snd with _ | mapped
      · rw [process_from_eq_key _ _ _ _ _ _ _ _ hv hs]
        exact ⟨hops, hcalls⟩
      · rcases hb : toById to_list item.mediaId with _ | to_item
        · -- create branch: this mediaId is absent from the destination
          have hne : item.mediaId ≠ D.mediaId := fun hEq =>
            toById_none to_list _ hb D hD hEq.symm
          rcases factory with _ | f
          · rw [process_from_eq_create_none _ _ _ _ _ _ _ _ hv hs hb]
            obtain ⟨st2, e?, hg, hgo, hgc⟩ :=
              gate_op_state none (some { item with status := mapped })
                (.create { item with status := mapped }) st
            rw [hg]
            have hops2 : ∀ op ∈ st2.ops, opMediaId op ≠ D.mediaId := by
              rcases hgo with hgo | hgo <;> rw [hgo]
              · exact hops
              · intro op hop
                rcases List.mem_append.mp hop with h | h
                · exact hops op h
                · simp only [List.mem_singleton] at h
                  subst h
                  simpa [opMediaId] using hne
            have hcalls2 : ∀ c ∈ st2.calls, ∀ d, c.2 = some d → d.status ∉ ignore := by
              rw [hgc]; exact hcalls
            cases e?
            · exact ih st2 hops2 hcalls2
            · exact ⟨hops2, hcalls2⟩
          · have hmp := hfac f rfl
            have hcalls1 : ∀ c ∈ st.calls ++ [(some { item with status := mapped }, none)],
                ∀ d, c.2 = some d → d.status ∉ ignore := by
              intro c hc d hd
              rcases List.mem_append.mp hc with h | h
              · exact hcalls c h d hd
              · simp only [List.mem_singleton] at h
                subst h
                simp at hd
            rcases hf : f (some { item with status := mapped }) none with _ | item2
            · rw [process_from_eq_create_hooknone _ _ _ f _ _ _ _ _ hv hs hb hf]
              exact ih _ hops hcalls1
            · rw [process_from_eq_create_hooksome _ _ _ f _ _ _ _ _ _ hv hs hb hf]
              have hm2 : item2.mediaId = item.mediaId :=
                hmp.1 { item with status := mapped } _ _ hf
              obtain ⟨st2, e?, hg, hgo, hgc⟩ :=
                gate_op_state none (some item2) (.create item2)
                  ⟨st.verbosity, st.answers, st.ops,
                    st.calls ++ [(some { item with status := mapped }, none)]⟩
              rw [hg]
              have hops2 : ∀ op ∈ st2.ops, opMediaId op ≠ D.mediaId := by
                rcases hgo with hgo | hgo <;> rw [hgo]
                · exact hops
                · intro op hop
                  rcases List.mem_append.mp hop with h | h
                  · exact hops op h
                  · simp only [List.mem_singleton] at h
                    subst h
                    simpa [opMediaId, hm2] using hne
              have hcalls2 : ∀ c ∈ st2.calls, ∀ d, c.2 = some d → d.status ∉ ignore := by
                rw [hgc]; exact hcalls1
              cases e?
              · exact ih st2 hops2 hcalls2
              · exact ⟨hops2, hcalls2⟩
        · -- existing-entry branch
          obtain ⟨hto_mem, hto_id⟩ := toById_mem to_list _ to_item hb
          by_cases hig : to_item.status ∈ ignore
          · rw [process_from_eq_prot _ _ _ _ _ _ _ _ _ _ hv hs hb hig]
            exact ih st hops hcalls
          · have hneto : to_item.mediaId ≠ D.mediaId := by
              intro hEq
              apply hig
              rw [mediaId_inj to_list hnodup to_item D hto_mem hD hEq]
              exact hprot
            have hitem_ne : item.mediaId ≠ D.mediaId := by
              rw [← hto_id]; exact hneto
            have hcalls1 : ∀ c ∈ st.calls ++
                  [(some { item with status := mapped }, some to_item)],
                ∀ d, c.2 = some d → d.status ∉ ignore := by
              intro c hc d hd
              rcases List.mem_append.mp hc with h | h
              · exact hcalls c h d hd
              · simp only [List.mem_singleton] at h
                subst h
                simp only at hd
                cases hd
                exact hig
            rcases factory with _ | f
            · rw [process_from_eq_upd_none _ _ _ _ _ _ _ _ _ hv hs hb hig]
              obtain ⟨st2, e?, hg, hgo, hgc⟩ :=
                gate_op_state (some to_item)
                  (some { item with status := mapped, id := to_item.id })
                  (.update { item with status := mapped, id := to_item.id }) st
              rw [hg]
              have hops2 : ∀ op ∈ st2.ops, opMediaId op ≠ D.mediaId := by
                rcases hgo with hgo | hgo <;> rw [hgo]
                · exact hops
                · intro op hop
                  rcases List.mem_append.mp hop with h | h
                  · exact hops op h
                  · simp only [List.mem_singleton] at h
                    subst h
                    simpa [opMediaId] using hitem_ne
              have hcalls2 : ∀ c ∈ st2.calls, ∀ d, c.2 = some d → d.status ∉ ignore := by
                rw [hgc]; exact hcalls
              cases e?
              · exact ih st2 hops2 hcalls2
              · exact ⟨hops2, hcalls2⟩
            · have hmp := hfac f rfl
              rcases hf : f (some { item with status := mapped }) (some to_item) with _ | item2
              · rw [process_from_eq_hookdel _ _ _ f _ _ _ _ _ _ hv hs hb hig hf]
                obtain ⟨st2, e?, hg, hgo, hgc⟩ :=
                  gate_op_state (some to_item) none (.delete to_item)
                    ⟨st.verbosity, st.answers, st.ops,
                      st.calls ++ [(some { item with status := mapped }, some to_item)]⟩
                rw [hg]
                have hops2 : ∀ op ∈ st2.ops, opMediaId op ≠ D.mediaId := by
                  rcases hgo with hgo | hgo <;> rw [hgo]
                  · exact hops
                  · intro op hop
                    rcases List.mem_append.mp hop with h | h
                    · exact hops op h
                    · simp only [List.mem_singleton] at h
                      subst h
                      simpa [opMediaId] using hneto
                have hcalls2 : ∀ c ∈ st2.calls, ∀ d, c.2 = some d → d.status ∉ ignore := by
                  rw [hgc]; exact hcalls1
                cases e?
                · exact ih st2 hops2 hcalls2
                · exact ⟨hops2, hcalls2⟩
              · rw [process_from_eq_hookupd _ _ _ f _ _ _ _ _ _ _ hv hs hb hig hf]
                have hm2 : item2.mediaId = item.mediaId :=
                hmp.1 { item with status := mapped } _ _ hf
                obtain ⟨st2, e?, hg, hgo, hgc⟩ :=
                  gate_op_state (some to_item) (some { item2 with id := to_item.id })
                    (.update { item2 with id := to_item.id })
                    ⟨st.verbosity, st.answers, st.ops,
                      st.calls ++ [(some { item with status := mapped }, some to_item)]⟩
                rw [hg]
                have hops2 : ∀ op ∈ st2.ops, opMediaId op ≠ D.mediaId := by
                  rcases hgo with hgo | hgo <;> rw [hgo]
                  · exact hops
                  · intro op hop
                    rcases List.mem_append.mp hop with h | h
                    · exact hops op h
                    · simp only [List.mem_singleton] at h
                      subst h
                      simpa [opMediaId, hm2] using hitem_ne
                have hcalls2 : ∀ c ∈ st2.calls, ∀ d, c.2 = some d → d.status ∉ ignore := by
                  rw [hgc]; exact hcalls1
                cases e?
                · exact ih st2 hops2 hcalls2
                · exact ⟨hops2, hcalls2⟩

/-- Invariant of the delete pass: no op for a protected mediaId, and the
hook only ever sees non-protected destination entries. -/
theorem process_deletes_protected_inv
    (mapped_ids : List Nat) (ignore : List String)
    (factory : Option Factory)
    (hfac : ∀ f, factory = some f → MediaIdPreserving f)
    (D : ListEntry) :
    ∀ (lst : List ListEntry) (st : MirrorState),
      (∀ x ∈ lst, x.status ∉ ignore → x.mediaId ≠ D.mediaId) →
      (∀ op ∈ st.ops, opMediaId op ≠ D.mediaId) →
      (∀ c ∈ st.calls, ∀ d, c.2 = some d → d.status ∉ ignore) →
      (∀ op ∈ (process_deletes mapped_ids ignore factory lst st).1.ops,
          opMediaId op ≠ D.mediaId) ∧
      (∀ c ∈ (process_deletes mapped_ids ignore factory lst st).1.calls,
          ∀ d, c.2 = some d → d.status ∉ ignore) := by
  intro lst
  induction lst with
  | nil => intro st _ hops hcalls; exact ⟨hops, hcalls⟩
  | cons to_item rest ih =>
    intro st hx hops hcalls
    have hxrest : ∀ x ∈ rest, x.status ∉ ignore → x.mediaId ≠ D.mediaId :=
      fun x hxm => hx x (List.mem_cons_of_mem _ hxm)
    by_cases hskip : to_item.mediaId ∈ mapped_ids ∨ to_item.status ∈ ignore
    · rw [process_deletes_eq_skip _ _ _ _ _ _ hskip]
      exact ih st hxrest hops hcalls
    · have hig : to_item.status ∉ ignore := fun h => hskip (Or.inr h)
      have hneto : to_item.mediaId ≠ D.mediaId :=
        hx to_item (List.mem_cons_self _ _) hig
      rcases factory with _ | f
      · rw [process_deletes_eq_del_none _ _ _ _ _ hskip]
        obtain ⟨st2, e?, hg, hgo, hgc⟩ :=
          gate_op_state (some to_item) none (.delete to_item) st
        rw [hg]
        have hops2 : ∀ op ∈ st2.ops, opMediaId op ≠ D.mediaId := by
          rcases hgo with hgo | hgo <;> rw [hgo]
          · exact hops
          · intro op hop
            rcases List.mem_append.mp hop with h | h
            · exact hops op h
            · simp only [List.mem_singleton] at h
              subst h
              simpa [opMediaId] using hneto
        have hcalls2 : ∀ c ∈ st2.calls, ∀ d, c.2 = some d → d.status ∉ ignore := by
          rw [hgc]; exact hcalls
        cases e?
        · exact ih st2 hxrest hops2 hcalls2
        · exact ⟨hops2, hcalls2⟩
      · have hmp := hfac f rfl
        have hcalls1 : ∀ c ∈ st.calls ++ [(none, some to_item)],
            ∀ d, c.2 = some d → d.status ∉ ignore := by
          intro c hc d hd
          rcases List.mem_append.mp hc with h | h
          · exact hcalls c h d hd
          · simp only [List.mem_singleton] at h
            subst h
            simp only at hd
            cases hd
            exact hig
        rcases hf : f none (some to_item) with _ | new_item
        · rw [process_deletes_eq_hookdel _ _ f _ _ _ hskip hf]
          obtain ⟨st2, e?, hg, hgo, hgc⟩ :=
            gate_op_state (some to_item) none (.delete to_item)
              ⟨st.verbosity, st.answers, st.ops, st.calls ++ [(none, some to_item)]⟩
          rw [hg]
          have hops2 : ∀ op ∈ st2.ops, opMediaId op ≠ D.mediaId := by
            rcases hgo with hgo | hgo <;> rw [hgo]
            · exact hops
            · intro op hop
              rcases List.mem_append.mp hop with h | h
              · exact hops op h
              · simp only [List.mem_singleton] at h
                subst h
                simpa [opMediaId] using hneto
          have hcalls2 : ∀ c ∈ st2.calls, ∀ d, c.2 = some d → d.status ∉ ignore := by
            rw [hgc]; exact hcalls1
          cases e?
          · exact ih st2 hxrest hops2 hcalls2
          · exact ⟨hops2, hcalls2⟩
        · rw [process_deletes_eq_rescue _ _ f _ _ _ _ hskip hf]
          have hm2 : new_item.mediaId = to_item.mediaId := hmp.2 _ _ hf
          obtain ⟨st2, e?, hg, hgo, hgc⟩ :=
            gate_op_state (some to_item) (some new_item) (.update new_item)
              ⟨st.verbosity, st.answers, st.ops, st.calls ++ [(none, some to_item)]⟩
          rw [hg]
          have hops2 : ∀ op ∈ st2.ops, opMediaId op ≠ D.mediaId := by
            rcases hgo with hgo | hgo <;> rw [hgo]
            · exact hops
            · intro op hop
              rcases List.mem_append.mp hop with h | h
              · exact hops op h
              · simp only [List.mem_singleton] at h
                subst h
                simpa [opMediaId, hm2] using hneto
          have hcalls2 : ∀ c ∈ st2.calls, ∀ d, c.2 = some d → d.status ∉ ignore := by
            rw [hgc]; exact hcalls1
          cases e?
          · exact ih st2 hxrest hops2 hcalls2
          · exact ⟨hops2, hcalls2⟩

/-- Claim C1 (amended): provided every entry the hook returns carries the
mediaId of the pair it was invoked on, then for every destination entry
whose status is in the (sanitized) protected set, no Create, Update or
Delete op is ever emitted for that mediaId — regardless of source content,
delete_unmapped, verbosity mode or console input — and the hook is never
invoked with that destination entry; the protection check at line 106
precedes the hook invocation at line 111. -/
theorem mirror_protected_invariant
    (from_list to_list : List ListEntry)
    (status_map : Option (List (String × String))) (igs : Option (List String))
    (du : Bool) (factory : Option Factory) (verbosity : Option ListEditVerbosity)
    (iy : Bool) (ans : List Answer)
    (hfac : ∀ f, factory = some f → MediaIdPreserving f)
    (D : ListEntry) (hD : D ∈ to_list)
    (hprot : D.status ∈ sanitizedIgnore igs) :
    (∀ op ∈ (mirror_list from_list to_list status_map igs du factory
        verbosity iy ans).ops, opMediaId op ≠ D.mediaId) ∧
    (∀ c ∈ (mirror_list from_list to_list status_map igs du factory
        verbosity iy ans).calls, c.2 ≠ some D) := by
  have hmain :
      (∀ op ∈ (mirror_list from_list to_list status_map igs du factory
          verbosity iy ans).ops, opMediaId op ≠ D.mediaId) ∧
      (∀ c ∈ (mirror_list from_list to_list status_map igs du factory
          verbosity iy ans).calls, ∀ d, c.2 = some d →
            d.status ∉ sanitizedIgnore igs) := by
    unfold mirror_list
    split
    · exact ⟨fun op hop => absurd hop (List.not_mem_nil _),
        fun c hc => absurd hc (List.not_mem_nil _)⟩
    · by_cases hnd : (to_list.map (fun e => e.mediaId)).Nodup
      · rw [if_pos hnd]
        have hinv1 := process_from_protected_inv to_list
          (sanitizedStatusMap status_map) (sanitizedIgnore igs) factory hfac hnd
          D hD hprot from_list ⟨verbosity, ans, [], []⟩
          (fun op hop => absurd hop (List.not_mem_nil _))
          (fun c hc => absurd hc (List.not_mem_nil _))
        split
        next st e hpf =>
          rw [hpf] at hinv1
          exact ⟨hinv1.1, hinv1.2⟩
        next st hpf =>
          rw [hpf] at hinv1
          by_cases hdu : du = false
          · rw [if_pos hdu]
            exact ⟨hinv1.1, hinv1.2⟩
          · rw [if_neg hdu]
            have hxall : ∀ x ∈ to_list, x.status ∉ sanitizedIgnore igs →
                x.mediaId ≠ D.mediaId := by
              intro x hxm hxig hEq
              exact hxig (by
                rw [mediaId_inj to_list hnd x D hxm hD hEq]
                exact hprot)
            have hinv2 := process_deletes_protected_inv
              (from_list.map (fun e => e.mediaId)) (sanitizedIgnore igs) factory hfac
              D to_list st hxall hinv1.1 hinv1.2
            split
            next st2 e2 hpd =>
              rw [hpd] at hinv2
              exact ⟨hinv2.1, hinv2.2⟩
            next st2 hpd =>
              rw [hpd] at hinv2
              exact ⟨hinv2.1, hinv2.2⟩
      · rw [if_neg hnd]
        exact ⟨fun op hop => absurd hop (List.not_mem_nil _),
          fun c hc => absurd hc (List.not_mem_nil _)⟩
  refine ⟨hmain.1, ?_⟩
  intro c hc hEq
  exact hmain.2 c hc D hEq hprot

/-- Witness for C1 (amended) at a concrete run with no hook. -/
theorem mirror_protected_invariant_witness :
    (∀ op ∈ (mirror_list [sampleEntry] [protectedEntry] none (some ["PAUSED"]) true
        none (some ⟨false, false⟩) true []).ops,
      opMediaId op ≠ protectedEntry.mediaId) ∧
    (∀ c ∈ (mirror_list [sampleEntry] [protectedEntry] none (some ["PAUSED"]) true
        none (some ⟨false, false⟩) true []).calls, c.2 ≠ some protectedEntry) :=
  mirror_protected_invariant [sampleEntry] [protectedEntry] none (some ["PAUSED"]) true
    none (some ⟨false, false⟩) true [] (fun _ h => nomatch h) protectedEntry
    (by simp) (by decide)

/-! ## C2: runs with approval forced off and no hook -/

/-- With require_approval off, confirm_entry_diff approves exactly the
non-equal pairs, consumes no input and keeps the verbosity context. -/
theorem confirm_forced (old new : Option ListEntry) (vb : Bool) (ans : List Answer) :
    confirm_entry_diff old new (some ⟨vb, false⟩) ans =
      .ok (!decide (new = old), some ⟨vb, false⟩, ans) := by
  unfold confirm_entry_diff
  by_cases h : new = old
  · rw [if_pos h]
    simp [h]
  · rw [if_neg h]
    cases vb <;> simp [h]

/-- With require_approval off, gate_op appends the op exactly when the two
entries differ, and never fails. -/
theorem gate_op_forced (old new : Option ListEntry) (op : Op) (st : MirrorState)
    (vb : Bool) (hv : st.verbosity = some ⟨vb, false⟩) :
    gate_op old new op st =
      (⟨st.verbosity, st.answers,
        st.ops ++ (if new = old then [] else [op]), st.calls⟩, none) := by
  unfold gate_op
  rw [hv, confirm_forced old new vb st.answers]
  by_cases h : new = old <;> simp [h]

theorem process_from_forced_create (tb : Nat → Option ListEntry)
    (smap : List (String × String)) (ignore : List String)
    (S : ListEntry) (rest : List ListEntry) (st : MirrorState)
    (vb : Bool) (mapped : String)
    (hv : st.verbosity = some ⟨vb, false⟩)
    (hs : (smap.find? (fun p => p.1 == S.status)).map Prod.snd = some mapped)
    (hb : tb S.mediaId = none) :
    process_from tb smap ignore none (S :: rest) st =
      process_from tb smap ignore none rest
        ⟨st.verbosity, st.answers,
          st.ops ++ [.create { S with status := mapped }], st.calls⟩ := by
  rw [process_from_eq_create_none tb smap ignore S rest st _ mapped hv hs hb,
    gate_op_forced none (some { S with status := mapped }) _ st vb hv]
  simp

theorem process_from_forced_upd (tb : Nat → Option ListEntry)
    (smap : List (String × String)) (ignore : List String)
    (S : ListEntry) (rest : List ListEntry) (st : MirrorState)
    (vb : Bool) (mapped : String) (D0 : ListEntry)
    (hv : st.verbosity = some ⟨vb, false⟩)
    (hs : (smap.find? (fun p => p.1 == S.status)).map Prod.snd = some mapped)
    (hb : tb S.mediaId = some D0)
    (hig : D0.status ∉ ignore) :
    process_from tb smap ignore none (S :: rest) st =
      process_from tb smap ignore none rest
        ⟨st.verbosity, st.answers,
          st.ops ++ (if { S with status := mapped, id := D0.id } = D0 then []
            else [.update { S with status := mapped, id := D0.id }]), st.calls⟩ := by
  rw [process_from_eq_upd_none tb smap ignore S rest st _ mapped D0 hv hs hb hig,
    gate_op_forced (some D0) (some { S with status := mapped, id := D0.id }) _ st vb hv]
  by_cases h : { S with status := mapped, id := D0.id } = D0 <;> simp [h]

theorem process_deletes_forced_del (mapped_ids : List Nat) (ignore : List String)
    (to_item : ListEntry) (rest : List ListEntry) (st : MirrorState) (vb : Bool)
    (hv : st.verbosity = some ⟨vb, false⟩)
    (h : ¬(to_item.mediaId ∈ mapped_ids ∨ to_item.status ∈ ignore)) :
    process_deletes mapped_ids ignore none (to_item :: rest) st =
      process_deletes mapped_ids ignore none rest
        ⟨st.verbosity, st.answers, st.ops ++ [.delete to_item], st.calls⟩ := by
  rw [process_deletes_eq_del_none mapped_ids ignore to_item rest st h,
    gate_op_forced (some to_item) none (.delete to_item) st vb hv]
  simp

/-- The first pass with no hook and approval off runs to completion and
appends exactly the forced_ops1 writes. -/
theorem process_from_forced (tb : Nat → Option ListEntry)
    (smap : List (String × String)) (ignore : List String) (vb : Bool) :
    ∀ (lst : List ListEntry) (st : MirrorState),
      st.verbosity = some ⟨vb, false⟩ →
      (∀ S ∈ lst, ((smap.find? (fun p => p.1 == S.status)).map Prod.snd).isSome) →
      process_from tb smap ignore none lst st =
        (⟨st.verbosity, st.answers, st.ops ++ forced_ops1 tb smap ignore lst,
          st.calls⟩, none) := by
  intro lst
  induction lst with
  | nil =>
    intro st hv _
    simp [process_from, forced_ops1]
  | cons S rest ih =>
    intro st hv hdom
    have hS := hdom S (List.mem_cons_self _ _)
    rcases hsf : (smap.find? (fun p => p.1 == S.status)).map Prod.snd with _ | mapped
    · rw [hsf] at hS
      cases hS
    · have hrest : ∀ S2 ∈ rest,
          ((smap.find? (fun p => p.1 == S2.status)).map Prod.snd).isSome :=
        fun S2 h => hdom S2 (List.mem_cons_of_mem _ h)
      have hremap : remapS smap S = { S with status := mapped } := by
        unfold remapS
        rw [hsf]
        rfl
      rcases hb : tb S.mediaId with _ | D0
      · rw [process_from_forced_create tb smap ignore S rest st vb mapped hv hsf hb]
        refine (ih ⟨st.verbosity, st.answers,
            st.ops ++ [Op.create { S with status := mapped }], st.calls⟩ hv hrest).trans ?_
        simp [forced_ops1, hb, hremap]
      · have hcand : candidateFor smap S D0 = { S with status := mapped, id := D0.id } := by
          unfold candidateFor
          rw [hremap]
        by_cases hig : D0.status ∈ ignore
        · rw [process_from_eq_prot tb smap ignore none S rest st _ mapped D0 hv hsf hb hig]
          refine (ih _ hv hrest).trans ?_
          simp [forced_ops1, hb, hig]
        · rw [process_from_forced_upd tb smap ignore S rest st vb mapped D0 hv hsf hb hig]
          refine (ih ⟨st.verbosity, st.answers,
              st.ops ++ (if { S with status := mapped, id := D0.id } = D0 then []
                else [Op.update { S with status := mapped, id := D0.id }]),
              st.calls⟩ hv hrest).trans ?_
          by_cases heq : { S with status := mapped, id := D0.id } = D0 <;>
            simp [forced_ops1, hb, hig, hcand, heq]

/-- The delete pass with no hook and approval off runs to completion and
appends exactly the forced_ops2 writes. -/
theorem process_deletes_forced (mapped_ids : List Nat) (ignore : List String) (vb : Bool) :
    ∀ (lst : List ListEntry) (st : MirrorState),
      st.verbosity = some ⟨vb, false⟩ →
      process_deletes mapped_ids ignore none lst st =
        (⟨st.verbosity, st.answers, st.ops ++ forced_ops2 mapped_ids ignore lst,
          st.calls⟩, none) := by
  intro lst
  induction lst with
  | nil =>
    intro st hv
    simp [process_deletes, forced_ops2]
  | cons to_item rest ih =>
    intro st hv
    by_cases hskip : to_item.mediaId ∈ mapped_ids ∨ to_item.status ∈ ignore
    · rw [process_deletes_eq_skip mapped_ids ignore none to_item rest st hskip]
      refine (ih _ hv).trans ?_
      simp [forced_ops2, hskip]
    · rw [process_deletes_forced_del mapped_ids ignore to_item rest st vb hv hskip]
      refine (ih ⟨st.verbosity, st.answers, st.ops ++ [Op.delete to_item],
        st.calls⟩ hv).trans ?_
      simp [forced_ops2, hskip]

/-- mirror_list with no hook and approval off: the full trace of writes in
closed form, no hook calls, and the None return. -/
theorem mirror_list_forced (from_list to_list : List ListEntry)
    (status_map : Option (List (String × String))) (igs : Option (List String))
    (du : Bool) (vb : Bool) (iy : Bool) (ans : List Answer)
    (hnd : (to_list.map (fun e => e.mediaId)).Nodup)
    (hdom : ∀ S ∈ from_list,
      (((sanitizedStatusMap status_map).find? (fun p => p.1 == S.status)).map
        Prod.snd).isSome) :
    mirror_list from_list to_list status_map igs du none (some ⟨vb, false⟩) iy ans =
      ⟨forced_ops1 (toById to_list) (sanitizedStatusMap status_map)
          (sanitizedIgnore igs) from_list ++
        (if du then forced_ops2 (from_list.map (fun e => e.mediaId))
          (sanitizedIgnore igs) to_list else []),
       [], .ok none⟩ := by
  unfold mirror_list
  split
  next hcond => simp at hcond
  next =>
    split
    next st e hpf =>
      rw [process_from_forced (toById to_list) (sanitizedStatusMap status_map)
        (sanitizedIgnore igs) vb from_list ⟨some ⟨vb, false⟩, ans, [], []⟩ rfl hdom] at hpf
      cases hpf
    next st hpf =>
      rw [process_from_forced (toById to_list) (sanitizedStatusMap status_map)
        (sanitizedIgnore igs) vb from_list ⟨some ⟨vb, false⟩, ans, [], []⟩ rfl hdom] at hpf
      obtain ⟨rfl, -⟩ := Prod.mk.injEq .. |>.mp hpf
      by_cases hdu : du = false
      · rw [if_pos hdu]
        subst hdu
        simp
      · rw [if_neg hdu]
        split
        next st2 e2 hpd =>
          rw [process_deletes_forced (from_list.map (fun e => e.mediaId))
            (sanitizedIgnore igs) vb to_list _ rfl] at hpd
          cases hpd
        next st2 hpd =>
          rw [process_deletes_forced (from_list.map (fun e => e.mediaId))
            (sanitizedIgnore igs) vb to_list _ rfl] at hpd
          obtain ⟨rfl, -⟩ := Prod.mk.injEq .. |>.mp hpd
          have hdu2 : du = true := by
            cases du
            · exact absurd rfl hdu
            · rfl
          subst hdu2
          simp

/-! ## C2: the destination state reached by a forced run -/

theorem toById_eq_some (l : List ListEntry) (E : ListEntry)
    (hnd : (l.map (fun e => e.mediaId)).Nodup) (hE : E ∈ l) :
    toById l E.mediaId = some E := by
  induction l with
  | nil => cases hE
  | cons a rest ih =>
    simp only [List.map_cons, List.nodup_cons] at hnd
    rcases List.mem_cons.mp hE with rfl | hE2
    · unfold toById
      rw [List.find?_cons_of_pos _ (by simp)]
    · unfold toById at ih ⊢
      rw [List.find?_cons_of_neg]
      · exact ih hnd.2 hE2
      · simp only [beq_iff_eq]
        intro hEq
        exact hnd.1 (hEq ▸ List.mem_map_of_mem _ hE2)

theorem apply_ops_append (fresh : Nat → Nat) :
    ∀ (l1 l2 : List Op) (dest : List ListEntry) (k : Nat),
      apply_ops dest fresh k (l1 ++ l2) =
        apply_ops (apply_ops dest fresh k l1) fresh (k + l1.length) l2 := by
  intro l1
  induction l1 with
  | nil =>
    intro l2 dest k
    simp [apply_ops]
  | cons op rest ih =>
    intro l2 dest k
    simp only [List.cons_append, apply_ops, List.append_eq]
    rw [ih]
    congr 1
    rw [List.length_cons]
    omega

/-- If the destination already realizes every source entry (up to the
entry id and modulo protection), the first pass emits nothing. -/
theorem forced_ops1_nil (to2 : List ListEntry) (smap : List (String × String))
    (ignore : List String) :
    ∀ (from_list : List ListEntry),
      (∀ S ∈ from_list, ∃ E ∈ to2, E.mediaId = S.mediaId ∧
        (E.status ∈ ignore ∨ E = candidateFor smap S E)) →
      (to2.map (fun e => e.mediaId)).Nodup →
      forced_ops1 (toById to2) smap ignore from_list = [] := by
  intro from_list
  induction from_list with
  | nil =>
    intro _ _
    rfl
  | cons S rest ih =>
    intro h hnd
    obtain ⟨E, hEmem, hEid, hEcase⟩ := h S (List.mem_cons_self _ _)
    have hfind : toById to2 S.mediaId = some E := by
      rw [← hEid]
      exact toById_eq_some to2 E hnd hEmem
    unfold forced_ops1
    simp only [hfind]
    rw [ih (fun S2 h2 => h S2 (List.mem_cons_of_mem _ h2)) hnd]
    by_cases hig : E.status ∈ ignore
    · rw [if_pos hig]
      rfl
    · rw [if_neg hig]
      rcases hEcase with hig2 | hEq
      · exact absurd hig2 hig
      · rw [if_pos hEq.symm]
        rfl

/-- If every destination entry is mapped or protected, the delete pass
emits nothing. -/
theorem forced_ops2_nil (mapped : List Nat) (ignore : List String)
    (to2 : List ListEntry)
    (h : ∀ E ∈ to2, E.mediaId ∈ mapped ∨ E.status ∈ ignore) :
    forced_ops2 mapped ignore to2 = [] := by
  unfold forced_ops2
  rw [List.filterMap_eq_nil_iff]
  intro E hE
  rw [if_pos (h E hE)]

@[simp] theorem remapS_mediaId (smap : List (String × String)) (S : ListEntry) :
    (remapS smap S).mediaId = S.mediaId := rfl

@[simp] theorem candidateFor_mediaId (smap : List (String × String)) (S D : ListEntry) :
    (candidateFor smap S D).mediaId = S.mediaId := rfl

@[simp] theorem candidateFor_id (smap : List (String × String)) (S D : ListEntry) :
    (candidateFor smap S D).id = D.id := rfl

theorem upd_entry_pos (e d : ListEntry) (h : d.id = e.id) : upd_entry e d = e :=
  if_pos h

theorem upd_entry_neg (e d : ListEntry) (h : ¬ d.id = e.id) : upd_entry e d = d :=
  if_neg h

/-- Effect of applying the first-pass writes to the fetched destination:
mediaIds stay unique, every processed source entry is realized (up to the
service-assigned id, unless protected), untouched entries survive, every
new or rewritten entry stems from a processed mediaId, and entry ids stay
consistent with the original destination. -/
theorem phase1 (to_list : List ListEntry) (smap : List (String × String))
    (ignore : List String) (fresh : Nat → Nat)
    (h_to_ids : (to_list.map (fun e => e.id)).Nodup)
    (h_fresh : ∀ k, fresh k ∉ to_list.map (fun e => e.id)) :
    ∀ (lst dest : List ListEntry) (k : Nat),
      ((lst.map (fun e => e.mediaId)).Nodup) →
      (∀ E ∈ dest, E.mediaId ∈ to_list.map (fun e => e.mediaId) ∨
        E.mediaId ∉ lst.map (fun e => e.mediaId)) →
      ((dest.map (fun e => e.mediaId)).Nodup) →
      (∀ E ∈ dest, ∀ Dd ∈ to_list, E.id = Dd.id → E.mediaId = Dd.mediaId) →
      (∀ Dd ∈ to_list, Dd.mediaId ∈ lst.map (fun e => e.mediaId) → Dd ∈ dest) →
      (((apply_ops dest fresh k (forced_ops1 (toById to_list) smap ignore lst)).map
          (fun e => e.mediaId)).Nodup) ∧
      (∀ S ∈ lst, ∃ E ∈ apply_ops dest fresh k
            (forced_ops1 (toById to_list) smap ignore lst),
          E.mediaId = S.mediaId ∧ (E.status ∈ ignore ∨ E = candidateFor smap S E)) ∧
      (∀ E ∈ dest, E.mediaId ∉ lst.map (fun e => e.mediaId) →
          E ∈ apply_ops dest fresh k (forced_ops1 (toById to_list) smap ignore lst)) ∧
      (∀ E ∈ apply_ops dest fresh k (forced_ops1 (toById to_list) smap ignore lst),
          E ∈ dest ∨ E.mediaId ∈ lst.map (fun e => e.mediaId)) ∧
      (∀ E ∈ apply_ops dest fresh k (forced_ops1 (toById to_list) smap ignore lst),
          ∀ Dd ∈ to_list, E.id = Dd.id → E.mediaId = Dd.mediaId) := by
  have hidinj : ∀ A ∈ to_list, ∀ B ∈ to_list, A.id = B.id → A = B :=
    fun A hA B hB h => List.inj_on_of_nodup_map h_to_ids hA hB h
  intro lst
  induction lst with
  | nil =>
    intro dest k _ _ hN hU _
    refine ⟨hN, ?_, ?_, ?_, hU⟩
    · intro S hS
      cases hS
    · intro E hE _
      exact hE
    · intro E hE
      exact Or.inl hE
  | cons S rest ih =>
    intro dest k hF hM hN hU hR
    simp only [List.map_cons, List.nodup_cons] at hF
    obtain ⟨hFhead, hFrest⟩ := hF
    rcases hb : toById to_list S.mediaId with _ | D0
    · -- create: this mediaId does not exist on the destination
      have hSm : S.mediaId ∉ to_list.map (fun e => e.mediaId) := by
        intro hmem
        obtain ⟨E, hEl, hEid⟩ := List.mem_map.mp hmem
        exact toById_none to_list _ hb E hEl hEid
      have hnotdest : ∀ E ∈ dest, E.mediaId ≠ S.mediaId := by
        intro E hE hEq
        rcases hM E hE with h | h
        · exact hSm (hEq ▸ h)
        · apply h
          simp [hEq]
      have happ : apply_ops dest fresh k
            (forced_ops1 (toById to_list) smap ignore (S :: rest)) =
          apply_ops (dest ++ [{ remapS smap S with id := fresh k }]) fresh (k + 1)
            (forced_ops1 (toById to_list) smap ignore rest) := by
        conv_lhs => unfold forced_ops1
        simp only [hb]
        rw [apply_ops_append]
        rfl
      rw [happ]
      have hM1 : ∀ E ∈ dest ++ [{ remapS smap S with id := fresh k }],
          E.mediaId ∈ to_list.map (fun e => e.mediaId) ∨
          E.mediaId ∉ rest.map (fun e => e.mediaId) := by
        intro E hE
        rcases List.mem_append.mp hE with h | h
        · rcases hM E h with h2 | h2
          · exact Or.inl h2
          · refine Or.inr (fun hmem => h2 ?_)
            simp [hmem]
        · simp only [List.mem_singleton] at h
          subst h
          exact Or.inr hFhead
      have hN1 : ((dest ++ [({ remapS smap S with id := fresh k } : ListEntry)]).map
          (fun e => e.mediaId)).Nodup := by
        rw [List.map_append, List.nodup_append]
        refine ⟨hN, List.nodup_singleton _, ?_⟩
        intro a ha
        obtain ⟨E, hE, hEa⟩ := List.mem_map.mp ha
        simp only [List.map_cons, List.map_nil, List.mem_singleton]
        intro hcon
        exact hnotdest E hE (by rw [← hEa] at hcon; exact hcon)
      have hU1 : ∀ E ∈ dest ++ [{ remapS smap S with id := fresh k }],
          ∀ Dd ∈ to_list, E.id = Dd.id → E.mediaId = Dd.mediaId := by
        intro E hE Dd hDd hid
        rcases List.mem_append.mp hE with h | h
        · exact hU E h Dd hDd hid
        · simp only [List.mem_singleton] at h
          subst h
          have hfid : fresh k = Dd.id := hid
          refine absurd ?_ (h_fresh k)
          rw [hfid]
          exact List.mem_map_of_mem _ hDd
      have hR1 : ∀ Dd ∈ to_list, Dd.mediaId ∈ rest.map (fun e => e.mediaId) →
          Dd ∈ dest ++ [{ remapS smap S with id := fresh k }] := by
        intro Dd hDd hmem
        exact List.mem_append_left _ (hR Dd hDd (by simp [hmem]))
      obtain ⟨c1, c2, c3, c4, c5⟩ := ih (dest ++ [{ remapS smap S with id := fresh k }])
        (k + 1) hFrest hM1 hN1 hU1 hR1
      refine ⟨c1, ?_, ?_, ?_, c5⟩
      · intro S2 hS2
        rcases List.mem_cons.mp hS2 with rfl | h2
        · refine ⟨{ remapS smap S2 with id := fresh k }, ?_, rfl, Or.inr rfl⟩
          exact c3 _ (List.mem_append_right _ (List.mem_singleton_self _)) hFhead
        · exact c2 S2 h2
      · intro E hE hmem
        have hmem2 : E.mediaId ∉ rest.map (fun e => e.mediaId) := by
          intro h
          exact hmem (by simp [h])
        exact c3 E (List.mem_append_left _ hE) hmem2
      · intro E hE
        rcases c4 E hE with h | h
        · rcases List.mem_append.mp h with h2 | h2
          · exact Or.inl h2
          · simp only [List.mem_singleton] at h2
            subst h2
            simp
        · exact Or.inr (by simp [h])
    · -- this mediaId exists on the destination as D0
      obtain ⟨hD0mem, hD0id⟩ := toById_mem to_list _ D0 hb
      have hD0dest : D0 ∈ dest := hR D0 hD0mem (by simp [← hD0id])
      have hM1 : ∀ E ∈ dest, E.mediaId ∈ to_list.map (fun e => e.mediaId) ∨
          E.mediaId ∉ rest.map (fun e => e.mediaId) := by
        intro E hE
        rcases hM E hE with h | h
        · exact Or.inl h
        · refine Or.inr (fun hmem => h ?_)
          simp [hmem]
      have hR1 : ∀ Dd ∈ to_list, Dd.mediaId ∈ rest.map (fun e => e.mediaId) →
          Dd ∈ dest :=
        fun Dd hDd hmem => hR Dd hDd (by simp [hmem])
      by_cases hig : D0.status ∈ ignore
      · -- protected: nothing applied
        have happ : apply_ops dest fresh k
              (forced_ops1 (toById to_list) smap ignore (S :: rest)) =
            apply_ops dest fresh k (forced_ops1 (toById to_list) smap ignore rest) := by
          conv_lhs => unfold forced_ops1
          simp only [hb]
          rw [if_pos hig]
          rfl
        rw [happ]
        obtain ⟨c1, c2, c3, c4, c5⟩ := ih dest k hFrest hM1 hN hU hR1
        refine ⟨c1, ?_, ?_, ?_, c5⟩
        · intro S2 hS2
          rcases List.mem_cons.mp hS2 with rfl | h2
          · exact ⟨D0, c3 D0 hD0dest (hD0id ▸ hFhead), hD0id, Or.inl hig⟩
          · exact c2 S2 h2
        · intro E hE hmem
          refine c3 E hE (fun h => hmem ?_)
          simp [h]
        · intro E hE
          rcases c4 E hE with h | h
          · exact Or.inl h
          · exact Or.inr (by simp [h])
      · by_cases heq : candidateFor smap S D0 = D0
        · -- the candidate already equals the destination entry: no op
          have happ : apply_ops dest fresh k
                (forced_ops1 (toById to_list) smap ignore (S :: rest)) =
              apply_ops dest fresh k (forced_ops1 (toById to_list) smap ignore rest) := by
            conv_lhs => unfold forced_ops1
            simp only [hb]
            rw [if_neg hig, if_pos heq]
            rfl
          rw [happ]
          obtain ⟨c1, c2, c3, c4, c5⟩ := ih dest k hFrest hM1 hN hU hR1
          refine ⟨c1, ?_, ?_, ?_, c5⟩
          · intro S2 hS2
            rcases List.mem_cons.mp hS2 with rfl | h2
            · refine ⟨D0, c3 D0 hD0dest (hD0id ▸ hFhead), hD0id, Or.inr ?_⟩
              conv_lhs => rw [← heq]
            · exact c2 S2 h2
          · intro E hE hmem
            refine c3 E hE (fun h => hmem ?_)
            simp [h]
          · intro E hE
            rcases c4 E hE with h | h
            · exact Or.inl h
            · exact Or.inr (by simp [h])
        · -- a real update: D0 is rewritten to the candidate
          have happ : apply_ops dest fresh k
                (forced_ops1 (toById to_list) smap ignore (S :: rest)) =
              apply_ops (dest.map (upd_entry (candidateFor smap S D0))) fresh (k + 1)
                (forced_ops1 (toById to_list) smap ignore rest) := by
            conv_lhs => unfold forced_ops1
            simp only [hb]
            rw [if_neg hig, if_neg heq, apply_ops_append]
            rfl
          rw [happ]
          have hupd_mediaId : ∀ E ∈ dest,
              (upd_entry (candidateFor smap S D0) E).mediaId = E.mediaId := by
            intro E hE
            by_cases h : E.id = (candidateFor smap S D0).id
            · rw [upd_entry_pos _ _ h]
              have hEid : E.id = D0.id := by simpa using h
              have := hU E hE D0 hD0mem hEid
              simp [this, hD0id]
            · rw [upd_entry_neg _ _ h]
          have hM1u : ∀ E2 ∈ dest.map (upd_entry (candidateFor smap S D0)),
              E2.mediaId ∈ to_list.map (fun e => e.mediaId) ∨
              E2.mediaId ∉ rest.map (fun e => e.mediaId) := by
            intro E2 hE2
            obtain ⟨E, hE, hEeq⟩ := List.mem_map.mp hE2
            rw [← hEeq, hupd_mediaId E hE]
            exact hM1 E hE
          have hN1u : ((dest.map (upd_entry (candidateFor smap S D0))).map
              (fun e => e.mediaId)).Nodup := by
            have heqmap : (dest.map (upd_entry (candidateFor smap S D0))).map
                (fun e => e.mediaId) = dest.map (fun e => e.mediaId) := by
              rw [List.map_map]
              exact List.map_congr_left (fun E hE => hupd_mediaId E hE)
            rw [heqmap]
            exact hN
          have hU1u : ∀ E2 ∈ dest.map (upd_entry (candidateFor smap S D0)),
              ∀ Dd ∈ to_list, E2.id = Dd.id → E2.mediaId = Dd.mediaId := by
            intro E2 hE2 Dd hDd hid
            obtain ⟨E, hE, hEeq⟩ := List.mem_map.mp hE2
            by_cases h : E.id = (candidateFor smap S D0).id
            · rw [upd_entry_pos _ _ h] at hEeq
              subst hEeq
              have hDdD0 : Dd = D0 := hidinj Dd hDd D0 hD0mem (by simpa using hid.symm)
              simp [hDdD0, hD0id]
            · rw [upd_entry_neg _ _ h] at hEeq
              subst hEeq
              exact hU E hE Dd hDd hid
          have hR1u : ∀ Dd ∈ to_list, Dd.mediaId ∈ rest.map (fun e => e.mediaId) →
              Dd ∈ dest.map (upd_entry (candidateFor smap S D0)) := by
            intro Dd hDd hmem
            have hDdest : Dd ∈ dest := hR1 Dd hDd hmem
            have hne : ¬ Dd.id = (candidateFor smap S D0).id := by
              simp only [candidateFor_id]
              intro hid
              have : Dd = D0 := hidinj Dd hDd D0 hD0mem hid
              subst this
              rw [hD0id] at hmem
              exact hFhead hmem
            have h2 := List.mem_map_of_mem (upd_entry (candidateFor smap S D0)) hDdest
            rwa [upd_entry_neg _ _ hne] at h2
          obtain ⟨c1, c2, c3, c4, c5⟩ := ih (dest.map (upd_entry (candidateFor smap S D0)))
            (k + 1) hFrest hM1u hN1u hU1u hR1u
          refine ⟨c1, ?_, ?_, ?_, c5⟩
          · intro S2 hS2
            rcases List.mem_cons.mp hS2 with rfl | h2
            · have hin : candidateFor smap S2 D0 ∈
                  dest.map (upd_entry (candidateFor smap S2 D0)) := by
                have h2 := List.mem_map_of_mem (upd_entry (candidateFor smap S2 D0)) hD0dest
                rwa [upd_entry_pos _ _ (by simp)] at h2
              refine ⟨candidateFor smap S2 D0,
                c3 _ hin (by simpa using hFhead), by simp, Or.inr rfl⟩
            · exact c2 S2 h2
          · intro E hE hmem
            have hne : ¬ E.id = (candidateFor smap S D0).id := by
              simp only [candidateFor_id]
              intro hid
              have : E.mediaId = D0.mediaId := hU E hE D0 hD0mem hid
              apply hmem
              simp [this, hD0id]
            have hin : E ∈ dest.map (upd_entry (candidateFor smap S D0)) := by
              have h2 := List.mem_map_of_mem (upd_entry (candidateFor smap S D0)) hE
              rwa [upd_entry_neg _ _ hne] at h2
            refine c3 E hin (fun h => hmem ?_)
            simp [h]
          · intro E hE
            rcases c4 E hE with h | h
            · obtain ⟨E0, hE0, hE0eq⟩ := List.mem_map.mp h
              by_cases h2 : E0.id = (candidateFor smap S D0).id
              · rw [upd_entry_pos _ _ h2] at hE0eq
                subst hE0eq
                simp
              · rw [upd_entry_neg _ _ h2] at hE0eq
                subst hE0eq
                exact Or.inl hE0
            · exact Or.inr (by simp [h])

/-- Effect of applying the delete-pass writes: the result is a sublist of
the input, keeps every entry no delete op targets, and holds no entry
whose id was deleted. -/
theorem phase2 (mapped : List Nat) (ignore : List String) (fresh : Nat → Nat) :
    ∀ (tl dest : List ListEntry) (k : Nat),
      (apply_ops dest fresh k (forced_ops2 mapped ignore tl)).Sublist dest ∧
      (∀ E ∈ dest,
        (∀ Dd ∈ tl, Dd.mediaId ∉ mapped → Dd.status ∉ ignore → E.id ≠ Dd.id) →
        E ∈ apply_ops dest fresh k (forced_ops2 mapped ignore tl)) ∧
      (∀ E ∈ apply_ops dest fresh k (forced_ops2 mapped ignore tl),
        ∀ Dd ∈ tl, Dd.mediaId ∉ mapped → Dd.status ∉ ignore → E.id ≠ Dd.id) := by
  intro tl
  induction tl with
  | nil =>
    intro dest k
    refine ⟨List.Sublist.refl _, ?_, ?_⟩
    · intro E hE _
      exact hE
    · intro E _ Dd hDd
      cases hDd
  | cons Dd0 rest ih =>
    intro dest k
    by_cases hskip : Dd0.mediaId ∈ mapped ∨ Dd0.status ∈ ignore
    · have hops : forced_ops2 mapped ignore (Dd0 :: rest) =
          forced_ops2 mapped ignore rest := by
        unfold forced_ops2
        rw [List.filterMap_cons_none (by rw [if_pos hskip])]
      rw [hops]
      obtain ⟨p1, p2, p3⟩ := ih dest k
      refine ⟨p1, ?_, ?_⟩
      · intro E hE hcond
        exact p2 E hE (fun Dd h => hcond Dd (List.mem_cons_of_mem _ h))
      · intro E hE Dd hDd
        rcases List.mem_cons.mp hDd with rfl | h2
        · intro hm hi
          rcases hskip with h | h
          · exact absurd h hm
          · exact absurd h hi
        · exact p3 E hE Dd h2
    · have hnm : Dd0.mediaId ∉ mapped := fun h => hskip (Or.inl h)
      have hni : Dd0.status ∉ ignore := fun h => hskip (Or.inr h)
      have hops : forced_ops2 mapped ignore (Dd0 :: rest) =
          Op.delete Dd0 :: forced_ops2 mapped ignore rest := by
        unfold forced_ops2
        rw [List.filterMap_cons_some (by rw [if_neg hskip])]
      rw [hops]
      have happ : apply_ops dest fresh k
            (Op.delete Dd0 :: forced_ops2 mapped ignore rest) =
          apply_ops (dest.filter (fun d => d.id ≠ Dd0.id)) fresh (k + 1)
            (forced_ops2 mapped ignore rest) := rfl
      rw [happ]
      obtain ⟨p1, p2, p3⟩ := ih (dest.filter (fun d => d.id ≠ Dd0.id)) (k + 1)
      refine ⟨p1.trans (List.filter_sublist _), ?_, ?_⟩
      · intro E hE hcond
        have hne : E.id ≠ Dd0.id := hcond Dd0 (List.mem_cons_self _ _) hnm hni
        have hEf : E ∈ dest.filter (fun d => d.id ≠ Dd0.id) := by
          rw [List.mem_filter]
          exact ⟨hE, by simpa using hne⟩
        exact p2 E hEf (fun Dd h => hcond Dd (List.mem_cons_of_mem _ h))
      · intro E hE Dd hDd
        rcases List.mem_cons.mp hDd with rfl | h2
        · intro _ _
          have hEf : E ∈ dest.filter (fun d => d.id ≠ Dd.id) := p1.subset hE
          have := (List.mem_filter.mp hEf).2
          simpa using this
        · exact p3 E hE Dd h2

/-- Claim C2: with approval forced off (require_approval false) and no
entry_factory, running mirror_list a second time against the destination
state produced by applying the first run writes performs zero Create,
Update or Delete operations.  Hypotheses: the two fetched collections have
unique mediaIds and the destination unique entry ids, the service assigns
fresh ids on create, and every source status lies in the sanitized status
map (which the status_in fetch guarantees). -/
theorem mirror_idempotent
    (from_list to_list : List ListEntry)
    (status_map : Option (List (String × String))) (igs : Option (List String))
    (du : Bool) (fresh : Nat → Nat) (vb vb2 iy iy2 : Bool) (ans ans2 : List Answer)
    (h1 : (from_list.map (fun e => e.mediaId)).Nodup)
    (h2 : (to_list.map (fun e => e.mediaId)).Nodup)
    (h3 : (to_list.map (fun e => e.id)).Nodup)
    (h4 : ∀ k, fresh k ∉ to_list.map (fun e => e.id))
    (h5 : ∀ S ∈ from_list,
      (((sanitizedStatusMap status_map).find? (fun p => p.1 == S.status)).map
        Prod.snd).isSome) :
    (mirror_list from_list
      (apply_ops to_list fresh 0
        (mirror_list from_list to_list status_map igs du none
          (some ⟨vb, false⟩) iy ans).ops)
      status_map igs du none (some ⟨vb2, false⟩) iy2 ans2).ops = [] := by
  have hops1 : (mirror_list from_list to_list status_map igs du none
      (some ⟨vb, false⟩) iy ans).ops =
      forced_ops1 (toById to_list) (sanitizedStatusMap status_map)
        (sanitizedIgnore igs) from_list ++
      (if du then forced_ops2 (from_list.map (fun e => e.mediaId))
        (sanitizedIgnore igs) to_list else []) := by
    rw [mirror_list_forced from_list to_list status_map igs du vb iy ans h2 h5]
  rw [hops1, apply_ops_append]
  obtain ⟨c1, c2, c3, c4, c5⟩ := phase1 to_list (sanitizedStatusMap status_map)
    (sanitizedIgnore igs) fresh h3 h4 from_list to_list 0 h1
    (fun E hE => Or.inl (List.mem_map_of_mem _ hE)) h2
    (fun E hE Dd hDd hid => by rw [List.inj_on_of_nodup_map h3 hE hDd hid])
    (fun Dd hDd _ => hDd)
  cases du with
  | false =>
    have hnil : (if (false : Bool) then forced_ops2
        (from_list.map (fun e => e.mediaId)) (sanitizedIgnore igs) to_list
        else ([] : List Op)) = [] := by
      simp
    rw [hnil]
    have hnd2 : ((apply_ops (apply_ops to_list fresh 0
        (forced_ops1 (toById to_list) (sanitizedStatusMap status_map)
          (sanitizedIgnore igs) from_list)) fresh
        (0 + (forced_ops1 (toById to_list) (sanitizedStatusMap status_map)
          (sanitizedIgnore igs) from_list).length) []).map
        (fun e => e.mediaId)).Nodup := c1
    have hreal2 : ∀ S ∈ from_list, ∃ E ∈ apply_ops (apply_ops to_list fresh 0
        (forced_ops1 (toById to_list) (sanitizedStatusMap status_map)
          (sanitizedIgnore igs) from_list)) fresh
        (0 + (forced_ops1 (toById to_list) (sanitizedStatusMap status_map)
          (sanitizedIgnore igs) from_list).length) [],
        E.mediaId = S.mediaId ∧ (E.status ∈ sanitizedIgnore igs ∨
          E = candidateFor (sanitizedStatusMap status_map) S E) := c2
    rw [mirror_list_forced from_list _ status_map igs false vb2 iy2 ans2 hnd2 h5]
    rw [forced_ops1_nil _ (sanitizedStatusMap status_map) (sanitizedIgnore igs)
      from_list hreal2 hnd2]
    simp
  | true =>
    have hite : (if (true : Bool) then forced_ops2
        (from_list.map (fun e => e.mediaId)) (sanitizedIgnore igs) to_list
        else ([] : List Op)) = forced_ops2
        (from_list.map (fun e => e.mediaId)) (sanitizedIgnore igs) to_list := by
      simp
    rw [hite]
    obtain ⟨p1, p2, p3⟩ := phase2 (from_list.map (fun e => e.mediaId))
      (sanitizedIgnore igs) fresh to_list
      (apply_ops to_list fresh 0 (forced_ops1 (toById to_list)
        (sanitizedStatusMap status_map) (sanitizedIgnore igs) from_list))
      (0 + (forced_ops1 (toById to_list) (sanitizedStatusMap status_map)
        (sanitizedIgnore igs) from_list).length)
    have hnd2 : ((apply_ops (apply_ops to_list fresh 0
        (forced_ops1 (toById to_list) (sanitizedStatusMap status_map)
          (sanitizedIgnore igs) from_list)) fresh
        (0 + (forced_ops1 (toById to_list) (sanitizedStatusMap status_map)
          (sanitizedIgnore igs) from_list).length)
        (forced_ops2 (from_list.map (fun e => e.mediaId))
          (sanitizedIgnore igs) to_list)).map (fun e => e.mediaId)).Nodup :=
      c1.sublist (p1.map (fun e => e.mediaId))
    have hreal2 : ∀ S ∈ from_list, ∃ E ∈ apply_ops (apply_ops to_list fresh 0
        (forced_ops1 (toById to_list) (sanitizedStatusMap status_map)
          (sanitizedIgnore igs) from_list)) fresh
        (0 + (forced_ops1 (toById to_list) (sanitizedStatusMap status_map)
          (sanitizedIgnore igs) from_list).length)
        (forced_ops2 (from_list.map (fun e => e.mediaId))
          (sanitizedIgnore igs) to_list),
        E.mediaId = S.mediaId ∧ (E.status ∈ sanitizedIgnore igs ∨
          E = candidateFor (sanitizedStatusMap status_map) S E) := by
      intro S hS
      obtain ⟨E, hE1, hEid, hEprop⟩ := c2 S hS
      refine ⟨E, ?_, hEid, hEprop⟩
      refine p2 E hE1 ?_
      intro Dd hDd hnm _ hid
      apply hnm
      rw [← c5 E hE1 Dd hDd hid, hEid]
      exact List.mem_map_of_mem _ hS
    have hprot2 : ∀ E ∈ apply_ops (apply_ops to_list fresh 0
        (forced_ops1 (toById to_list) (sanitizedStatusMap status_map)
          (sanitizedIgnore igs) from_list)) fresh
        (0 + (forced_ops1 (toById to_list) (sanitizedStatusMap status_map)
          (sanitizedIgnore igs) from_list).length)
        (forced_ops2 (from_list.map (fun e => e.mediaId))
          (sanitizedIgnore igs) to_list),
        E.mediaId ∈ from_list.map (fun e => e.mediaId) ∨
        E.status ∈ sanitizedIgnore igs := by
      intro E hE
      have hEd1 := p1.subset hE
      rcases c4 E hEd1 with hEto | hmap
      · by_cases hm : E.mediaId ∈ from_list.map (fun e => e.mediaId)
        · exact Or.inl hm
        · by_cases hi : E.status ∈ sanitizedIgnore igs
          · exact Or.inr hi
          · exact absurd rfl (p3 E hE E hEto hm hi)
      · exact Or.inl hmap
    rw [mirror_list_forced from_list _ status_map igs true vb2 iy2 ans2 hnd2 h5]
    rw [forced_ops1_nil _ (sanitizedStatusMap status_map) (sanitizedIgnore igs)
      from_list hreal2 hnd2]
    rw [forced_ops2_nil (from_list.map (fun e => e.mediaId))
      (sanitizedIgnore igs) _ hprot2]
    simp

/-- Witness for C2 at a concrete pair of runs. -/
theorem mirror_idempotent_witness :
    (mirror_list [sampleEntry]
      (apply_ops [] (fun k => k) 0
        (mirror_list [sampleEntry] [] none none true none
          (some ⟨false, false⟩) true []).ops)
      none none true none (some ⟨false, false⟩) true []).ops = [] :=
  mirror_idempotent [sampleEntry] [] none none true (fun k => k)
    false false true true [] [] (by simp) (by simp) (by simp)
    (fun k => by simp) (by decide)

/-! ## C7: single-page depagination -/

/-- The unwrap loop resolves any accepted wrapper nest to its core page
object. -/
theorem unwrap_to_page_of_unwrapsTo (d : Json) (fs : List (String × Json))
    (h : UnwrapsTo d fs) : unwrap_to_page d = .ok (.obj fs) := by
  induction h with
  | base fs hmem =>
    unfold unwrap_to_page
    rw [if_pos hmem]
  | step k j fs hk h ih =>
    unfold unwrap_to_page
    rw [if_neg (by simp [Ne.symm hk])]
    exact ih

/-- Claim C7: a payload nesting single-key wrappers around a page object
with hasNextPage false and exactly one sibling item-list field
depaginates to exactly that item list, using a single transport call. -/
theorem depaginated_single_page (d : Json) (pj : Json) (key : String)
    (items : List Json) (fs : List (String × Json))
    (hw : UnwrapsTo d fs)
    (hshape : fs = [("pageInfo", pj), (key, .arr items)] ∨
              fs = [(key, .arr items), ("pageInfo", pj)])
    (hkey : key ≠ "pageInfo")
    (hnext : pj.lookupKey "hasNextPage" = some (.bool false)) :
    depaginated_request [d] none = .ok (items, 1) := by
  have hu := unwrap_to_page_of_unwrapsTo d fs hw
  unfold depaginated_request depaginate_go
  rw [hu]
  rcases pj with _ | b | n | s | l | pfs <;> simp only [Json.lookupKey] at hnext
  all_goals try exact Option.noConfusion hnext
  obtain ⟨a, hx, hfa⟩ := Option.map_eq_some'.mp hnext
  rcases hshape with h | h <;> subst h <;>
    simp [extract_page, Json.lookupKey, hkey, hx, hfa, Json.truthy]

/-- Witness for C7: the Media.staff.edges payload of the spec example
depaginates to its three edge objects in one call. -/
theorem depaginated_single_page_witness :
    depaginated_request [Json.obj [("Media", .obj [("staff", .obj
      [("pageInfo", .obj [("hasNextPage", .bool false)]),
       ("edges", .arr [.str "a", .str "b", .str "c"])])])]] none =
      .ok ([.str "a", .str "b", .str "c"], 1) :=
  depaginated_single_page _ (.obj [("hasNextPage", .bool false)]) "edges"
    [.str "a", .str "b", .str "c"] _
    (.step "Media" _ _ (by decide)
      (.step "staff" _ _ (by decide) (.base _ (by simp))))
    (.inl rfl) (by decide) rfl

end Anilist
